import Mathlib

/-!
Verification development for a protobuf-to-protobuf converter
(a `ProtoConverter` class built on reflective field descriptors).

The embedding models:
* schema metadata (`SchemaType`, `FieldDesc`, oneof groups) as supplied by the
  external reflection system; descriptor identity is modelled by a numeric
  `id` (distinct descriptor objects carry distinct ids, and the well-known
  `google.protobuf.Any` descriptor is the one with id `anyTypeId`);
* the compatibility analyzer `_is_src_field_auto_convertible`;
* `_get_unhandled_fields`, `_validate_oneof_field_multi_mapping`, and the
  constructor validation `_assert_all_fields_are_handled`;
* message instances (`PMsg`) with populated fields only (mirroring
  `ListFields`), and the runtime `convert` / `_auto_convert` walk, with the
  external symbol-database registry modelled as a lookup function
  `pool : String → Option SchemaType`.

Fallible paths (python `KeyError` / `TypeError` and shape errors that a
well-typed protobuf instance cannot produce) are modelled with `Except`.
-/

namespace ProtoConv

/-- `descriptor.FieldDescriptor.LABEL_OPTIONAL`. -/
def LABEL_OPTIONAL : Nat := 1

/-- `descriptor.FieldDescriptor.LABEL_REPEATED`. -/
def LABEL_REPEATED : Nat := 3

/-- `descriptor.FieldDescriptor.TYPE_MESSAGE`. -/
def TYPE_MESSAGE : Nat := 11

/-- `descriptor.FieldDescriptor.TYPE_ENUM`. -/
def TYPE_ENUM : Nat := 14

mutual

/-- A message descriptor: identity surrogate `id`, short `name`
(`DESCRIPTOR.name`), `fullName` (`DESCRIPTOR.full_name`), the
`has_options` / `GetOptions().map_entry` flags, the field descriptors, and
the oneof groups (`oneofs_by_name`: group name with member field names). -/
inductive SchemaType : Type where
  | mk (id : Nat) (name : String) (fullName : String) (hasOptions : Bool)
      (mapEntry : Bool) (fields : List FieldDesc)
      (oneofs : List (String × List String)) : SchemaType

/-- A field descriptor: `name`, `label` (repetition), `ftype`
(the `type` enum value), and `message_type` (present for message-kind
fields). -/
inductive FieldDesc : Type where
  | mk (name : String) (label : Nat) (ftype : Nat)
      (messageType : Option SchemaType) : FieldDesc

end

def SchemaType.id : SchemaType → Nat
  | .mk i _ _ _ _ _ _ => i

def SchemaType.name : SchemaType → String
  | .mk _ n _ _ _ _ _ => n

def SchemaType.fullName : SchemaType → String
  | .mk _ _ fn _ _ _ _ => fn

def SchemaType.hasOptions : SchemaType → Bool
  | .mk _ _ _ ho _ _ _ => ho

def SchemaType.mapEntry : SchemaType → Bool
  | .mk _ _ _ _ me _ _ => me

def SchemaType.fields : SchemaType → List FieldDesc
  | .mk _ _ _ _ _ fs _ => fs

def SchemaType.oneofs : SchemaType → List (String × List String)
  | .mk _ _ _ _ _ _ os => os

def FieldDesc.name : FieldDesc → String
  | .mk n _ _ _ => n

def FieldDesc.label : FieldDesc → Nat
  | .mk _ l _ _ => l

def FieldDesc.ftype : FieldDesc → Nat
  | .mk _ _ t _ => t

def FieldDesc.messageType : FieldDesc → Option SchemaType
  | .mk _ _ _ mt => mt

/-- Descriptor identity of the well-known `google.protobuf.Any` type: in this
model it is the unique schema whose `id` is `anyTypeId`. -/
def anyTypeId : Nat := 0

/-- A schema type is the any-wrapper type (identity with the Any
descriptor). -/
def isAnySchema (s : SchemaType) : Bool :=
  s.id == anyTypeId

/-- `_is_any_field`: the field's `message_type` is (identical to) the Any
descriptor. -/
def isAnyField (f : FieldDesc) : Bool :=
  match f.messageType with
  | some m => isAnySchema m
  | none => false

/-- `_is_map_field`: repeated message whose nested type is a map entry. -/
def isMapField (f : FieldDesc) : Bool :=
  f.label == LABEL_REPEATED && f.ftype == TYPE_MESSAGE &&
    (match f.messageType with
     | some m => m.hasOptions && m.mapEntry
     | none => false)

/-- `fields_by_name` lookup over a descriptor's field list. -/
def findField (fields : List FieldDesc) (name : String) : Option FieldDesc :=
  fields.find? (fun f => f.name == name)

/-- Identity comparison of the two `message_type` descriptors
(`src_field.message_type != dest_field.message_type` in the source compares
python object identity; here identity is id equality). -/
def sameMessageType (src dest : FieldDesc) : Bool :=
  match src.messageType, dest.messageType with
  | some a, some b => a.id == b.id
  | none, none => true
  | _, _ => false

mutual

/-- Executable structural size of a field descriptor (recursion measure for
the analyzer's map-entry descent). -/
def fieldSize : FieldDesc → Nat
  | .mk _ _ _ none => 1
  | .mk _ _ _ (some s) => 1 + schemaSize s

def schemaSize : SchemaType → Nat
  | .mk _ _ _ _ _ fs _ => 1 + fieldsSize fs

def fieldsSize : List FieldDesc → Nat
  | [] => 0
  | f :: rest => 1 + fieldSize f + fieldsSize rest

end

/-- `_is_src_field_auto_convertible` with an explicit recursion-depth bound.
The recursion of the source (into the key/value sub-fields of a map entry
type) descends strictly into the source field descriptor, so any `fuel` of
at least `fieldSize src` gives the function's true value
(`isAutoConvertibleF_congr` below); the fuel-exhaustion branch is
unreachable from `isAutoConvertible`. -/
def isAutoConvertibleF : Nat → FieldDesc → List FieldDesc → Bool
  | 0, _, _ => false
  | fuel + 1, src, destFields =>
    match findField destFields src.name with
    | none => false
    | some dest =>
      if dest.label != src.label || src.ftype != dest.ftype then false
      else if isMapField src then
        match src.messageType with
        | none => false
        | some sm =>
          match dest.messageType with
          | none => false
          | some dm =>
            match findField sm.fields "key", findField sm.fields "value" with
            | some kf, some vf =>
              isAutoConvertibleF fuel kf dm.fields &&
                isAutoConvertibleF fuel vf dm.fields
            | some _, none => false
            | none, _ => false
      else if src.ftype == TYPE_MESSAGE then
        if isAnyField src && isAnyField dest then true
        else if isAnyField src then false
        else if isAnyField dest then true
        else sameMessageType src dest
      else true

/-- `_is_src_field_auto_convertible`: schema-metadata-only check that
`src_field` can be auto-converted into the same-named destination field. -/
def isAutoConvertible (src : FieldDesc) (destFields : List FieldDesc) : Bool :=
  isAutoConvertibleF (fieldSize src) src destFields

/-- `_get_unhandled_fields`: the (order-preserving) list of names of source
fields that are neither ignored nor auto-convertible. -/
def getUnhandledFields (srcFields : List FieldDesc) (destFields : List FieldDesc)
    (fieldNamesToIgnore : List String) : List String :=
  match srcFields with
  | [] => []
  | f :: rest =>
    if fieldNamesToIgnore.contains f.name then
      getUnhandledFields rest destFields fieldNamesToIgnore
    else if isAutoConvertible f destFields then
      getUnhandledFields rest destFields fieldNamesToIgnore
    else
      f.name :: getUnhandledFields rest destFields fieldNamesToIgnore

/-- Python-dict insertion: overwrite the value at an existing key, else
append. -/
def dictInsert (d : List (String × String)) (k v : String) :
    List (String × String) :=
  match d with
  | [] => [(k, v)]
  | (k2, v2) :: rest =>
    if k2 == k then (k2, v) :: rest else (k2, v2) :: dictInsert rest k v

/-- Python-dict lookup. -/
def dictLookup (d : List (String × String)) (k : String) : Option String :=
  match d.find? (fun p => p.1 == k) with
  | some p => some p.2
  | none => none

/-- `_get_fields_to_oneof_dict`: maps every member field name of every oneof
group to the (last) group name containing it. -/
def getFieldsToOneofDict (oneofs : List (String × List String)) :
    List (String × String) :=
  oneofs.foldl (fun acc gp => gp.2.foldl (fun a n => dictInsert a n gp.1) acc) []

/-- Python-set insertion into a distinct-element list. -/
def insertSet (acc : List String) (x : String) : List String :=
  if acc.contains x then acc else acc ++ [x]

/-- The `mapped_field` set computed for one oneof group's member names in
`_validate_oneof_field_multi_mapping`. -/
def mappedFields (destOneofDict : List (String × String))
    (destFieldNames : List String) (ignoredFields : List String)
    (members : List String) : List String :=
  members.foldl
    (fun acc n =>
      if ignoredFields.contains n then acc
      else
        match dictLookup destOneofDict n with
        | some g => insertSet acc g
        | none => if destFieldNames.contains n then insertSet acc n else acc)
    []

/-- Configuration errors raised at construction time
(`NotImplementedError` in the source, with the data carried by the message). -/
inductive ConfigError : Type where
  | unhandledFields (names : List String) : ConfigError
  | oneofMultiMapping (oneofName : String) (protoName : String) : ConfigError
deriving DecidableEq

/-- The per-group loop of `_validate_oneof_field_multi_mapping`: raise on the
first group whose `mapped_field` set has more than one element. -/
def validateOneofs (srcName : String) (destOneofDict : List (String × String))
    (destFieldNames : List String) (ignoredFields : List String) :
    List (String × List String) → Except ConfigError Unit
  | [] => .ok ()
  | (g, ms) :: rest =>
    if (mappedFields destOneofDict destFieldNames ignoredFields ms).length > 1 then
      .error (.oneofMultiMapping g srcName)
    else
      validateOneofs srcName destOneofDict destFieldNames ignoredFields rest

/-- `_validate_oneof_field_multi_mapping(src_pb, dest_pb, ignored_fields)`. -/
def validateOneofFieldMultiMapping (srcPb destPb : SchemaType)
    (ignoredFields : List String) : Except ConfigError Unit :=
  validateOneofs srcPb.name (getFieldsToOneofDict destPb.oneofs)
    (destPb.fields.map FieldDesc.name) ignoredFields srcPb.oneofs

/-- Spec-side vocabulary: the name of the first group, in declaration
order, whose `mapped_field` set has more than one element — the group the
validator's first raise names. -/
def firstViolation (destOneofDict : List (String × String))
    (destFieldNames ignoredFields : List String) :
    List (String × List String) → Option String
  | [] => none
  | (g, ms) :: rest =>
    if (mappedFields destOneofDict destFieldNames ignoredFields ms).length > 1
    then some g
    else firstViolation destOneofDict destFieldNames ignoredFields rest

/-! ## Message instances and the runtime conversion walk -/

mutual

/-- A populated message instance: its descriptor and its populated fields
(in `ListFields` order, names unique for real instances). -/
inductive PMsg : Type where
  | mk (schema : SchemaType) (fields : List (String × PField)) : PMsg

/-- The populated value of one field. -/
inductive PField : Type where
  | single (v : PVal) : PField
  | repF (vs : List PVal) : PField
  | mapF (kvs : List (Nat × PVal)) : PField

/-- A single protobuf value: a scalar/enum payload (opaque code), an embedded
concrete message, or an any-wrapper instance carrying a type name and the
boxed payload. -/
inductive PVal : Type where
  | prim (v : Nat) : PVal
  | emb (m : PMsg) : PVal
  | anyV (typeName : String) (payload : PMsg) : PVal

end

def PMsg.schema : PMsg → SchemaType
  | .mk s _ => s

def PMsg.fields : PMsg → List (String × PField)
  | .mk _ fs => fs

/-- Lookup of a populated field by name. -/
def lookupField (fields : List (String × PField)) (n : String) :
    Option PField :=
  match fields.find? (fun p => p.1 == n) with
  | some p => some p.2
  | none => none

/-- Replace the value of a populated field, or append it. -/
def setFields (fields : List (String × PField)) (n : String) (v : PField) :
    List (String × PField) :=
  match fields with
  | [] => [(n, v)]
  | (m, w) :: rest =>
    if m == n then (m, v) :: rest else (m, w) :: setFields rest n v

/-- Write one field of a message. -/
def setField (m : PMsg) (n : String) (v : PField) : PMsg :=
  .mk m.schema (setFields m.fields n v)

/-- The current contents of a repeated destination field (empty when the
field is not yet populated). -/
def getRepeated (m : PMsg) (n : String) : List PVal :=
  match lookupField m.fields n with
  | some (.repF vs) => vs
  | _ => []

/-- The current contents of a map destination field. -/
def getMapEntries (m : PMsg) (n : String) : List (Nat × PVal) :=
  match lookupField m.fields n with
  | some (.mapF kvs) => kvs
  | _ => []

/-- `Any.Pack`: box a concrete message, recording its full type name. -/
def packMsg (m : PMsg) : PVal :=
  .anyV m.schema.fullName m

/-- One element of the `Any[] -> Any[]` loop: `field.TypeName()`, registry
lookup (`FindMessageTypeByName`, raising when absent), construction of a
fresh instance, `field.Unpack(proto_object)` (which leaves the fresh
instance empty when the type-name check fails), and `Pack` of the result
into a new destination element. -/
def unboxRebox (pool : String → Option SchemaType) : PVal → Except String PVal
  | .anyV t p =>
    match pool t with
    | none => .error "KeyError: type name not found in symbol database pool"
    | some desc =>
      if t == desc.fullName then
        if p.schema.fullName == desc.fullName then
          .ok (packMsg p)
        else
          .error "payload does not parse as the registry type"
      else
        .ok (packMsg (PMsg.mk desc []))
  | _ => .error "TypeName on a non-Any element"

/-- The `Any[] -> Any[]` element loop of `_auto_convert`. -/
def convertAnyList (pool : String → Option SchemaType) :
    List PVal → Except String (List PVal)
  | [] => .ok []
  | v :: rest =>
    match unboxRebox pool v with
    | .error s => .error s
    | .ok w =>
      match convertAnyList pool rest with
      | .error s => .error s
      | .ok ws => .ok (w :: ws)

/-- `Pack` of one source element in the `Proto[] -> Any[]` loop. -/
def packPVal : PVal → Except String PVal
  | .emb m => .ok (packMsg m)
  | _ => .error "Pack on a non-message element"

/-- The `Proto[] -> Any[]` element loop of `_auto_convert`. -/
def packList : List PVal → Except String (List PVal)
  | [] => .ok []
  | v :: rest =>
    match packPVal v with
    | .error s => .error s
    | .ok w =>
      match packList rest with
      | .error s => .error s
      | .ok ws => .ok (w :: ws)

/-- The `Map<key, Proto> -> Map<key, Any>` loop: `dest_field[key].Pack(value)`
for each entry. -/
def packMapValues : List (Nat × PVal) → Except String (List (Nat × PVal))
  | [] => .ok []
  | (k, v) :: rest =>
    match packPVal v with
    | .error s => .error s
    | .ok w =>
      match packMapValues rest with
      | .error s => .error s
      | .ok ws => .ok ((k, w) :: ws)

/-- Insert one map entry, overwriting the value at an existing key. -/
def setMapKey (kvs : List (Nat × PVal)) (k : Nat) (v : PVal) :
    List (Nat × PVal) :=
  match kvs with
  | [] => [(k, v)]
  | (k2, v2) :: rest =>
    if k2 == k then (k2, v) :: rest else (k2, v2) :: setMapKey rest k v

/-- Map-container `MergeFrom`: entries of the source override entries of the
destination key-wise. -/
def mergeMapEntries (old new : List (Nat × PVal)) : List (Nat × PVal) :=
  new.foldl (fun acc kv => setMapKey acc kv.1 kv.2) old

/-- Conversion of one populated source field (the loop body of
`_auto_convert`): map case, array case, proto case, other case, in the
source's branch order.  `d` is the source field descriptor, `fv` the
populated source value. -/
def convertField (pool : String → Option SchemaType) (destSchema : SchemaType)
    (fieldNamesToIgnore unconvertedFields : List String) (dest : PMsg)
    (d : FieldDesc) (fv : PField) : Except String PMsg :=
  if fieldNamesToIgnore.contains d.name || unconvertedFields.contains d.name then
    .ok dest
  else
    match findField destSchema.fields d.name with
    | none => .error "KeyError: field name not in destination fields_by_name"
    | some dd =>
      if isMapField d then
        match d.messageType with
        | none => .error "map field without message_type"
        | some sm =>
          match findField sm.fields "value" with
          | none => .error "KeyError: no value sub-field on source map entry"
          | some svf =>
            match dd.messageType with
            | none => .error "map field without message_type"
            | some dm =>
              match findField dm.fields "value" with
              | none => .error "KeyError: no value sub-field on dest map entry"
              | some dvf =>
                match fv with
                | .mapF kvs =>
                  if isAnyField dvf && !isAnyField svf then
                    match packMapValues kvs with
                    | .error s => .error s
                    | .ok ws =>
                      .ok (setField dest d.name
                        (.mapF (mergeMapEntries (getMapEntries dest d.name) ws)))
                  else
                    .ok (setField dest d.name
                      (.mapF (mergeMapEntries (getMapEntries dest d.name) kvs)))
                | _ => .error "map field populated with a non-map value"
      else if d.label == LABEL_REPEATED then
        match fv with
        | .repF vs =>
          if isAnyField d then
            match convertAnyList pool vs with
            | .error s => .error s
            | .ok ws =>
              .ok (setField dest d.name (.repF (getRepeated dest d.name ++ ws)))
          else if isAnyField dd then
            match packList vs with
            | .error s => .error s
            | .ok ws =>
              .ok (setField dest d.name (.repF (getRepeated dest d.name ++ ws)))
          else
            .ok (setField dest d.name (.repF (getRepeated dest d.name ++ vs)))
        | _ => .error "repeated field populated with a non-repeated value"
      else if d.ftype == TYPE_MESSAGE then
        if isAnyField dd && !isAnyField d then
          match fv with
          | .single (.emb m) => .ok (setField dest d.name (.single (packMsg m)))
          | _ => .error "Pack on a non-message value"
        else
          match fv with
          | .single v => .ok (setField dest d.name (.single v))
          | _ => .error "CopyFrom on a non-singular value"
      else
        match fv with
        | .single v => .ok (setField dest d.name (.single v))
        | _ => .error "setattr on a non-singular value"

/-- The field loop of `_auto_convert` over the populated source fields
(each paired with its descriptor from the source schema, mirroring
`ListFields`). -/
def autoConvertFields (pool : String → Option SchemaType)
    (destSchema srcSchema : SchemaType)
    (fieldNamesToIgnore unconvertedFields : List String) :
    List (String × PField) → PMsg → Except String PMsg
  | [], dest => .ok dest
  | (n, fv) :: rest, dest =>
    match findField srcSchema.fields n with
    | none =>
      autoConvertFields pool destSchema srcSchema fieldNamesToIgnore
        unconvertedFields rest dest
    | some d =>
      match convertField pool destSchema fieldNamesToIgnore unconvertedFields
          dest d fv with
      | .error s => .error s
      | .ok dest2 =>
        autoConvertFields pool destSchema srcSchema fieldNamesToIgnore
          unconvertedFields rest dest2

/-- `_auto_convert(src_proto, dest_proto)`. -/
def autoConvert (pool : String → Option SchemaType)
    (fieldNamesToIgnore unconvertedFields : List String)
    (destSchema : SchemaType) (src dest : PMsg) : Except String PMsg :=
  autoConvertFields pool destSchema src.schema fieldNamesToIgnore
    unconvertedFields src.fields dest

/-! ## The converter object -/

/-- A registered handler: reads the source instance and updates the
destination instance. -/
abbrev Handler : Type := PMsg → PMsg → PMsg

/-- A handler as declared on the converter class: the method name, the
claimed field names (`convert_field_names`), and the function. -/
abbrev HandlerDecl : Type := String × List String × Handler

/-- Lexicographic code-point comparison of character lists (how python
compares strings). -/
def charsLe : List Char → List Char → Bool
  | [], _ => true
  | _ :: _, [] => false
  | c :: cs, d :: ds =>
    if c.toNat < d.toNat then true
    else if d.toNat < c.toNat then false
    else charsLe cs ds

/-- Python string ordering by code point, as used by `sorted()` and thus
by `dir()`. -/
def nameLe (a b : String) : Bool := charsLe a.data b.data

/-- Ordered insertion by method name. -/
def orderedInsertH (h : HandlerDecl) :
    List HandlerDecl → List HandlerDecl
  | [] => [h]
  | h2 :: rest =>
    if nameLe h.1 h2.1 then h :: h2 :: rest
    else h2 :: orderedInsertH h rest

/-- The handler-collection loop of `_assert_all_fields_are_handled`
iterates `dir(self.__class__)`, and `dir()` returns the attribute names
sorted by code point — so the decorated handler methods are collected (and
later invoked) in alphabetical order of their method names, not in
declaration order.  Modelled as an insertion sort by `nameLe` on the
declared handlers (method names are unique on a class, so stability is
immaterial). -/
def collectHandlers : List HandlerDecl → List HandlerDecl
  | [] => []
  | h :: rest => orderedInsertH h (collectHandlers rest)

/-- The field names claimed by a list of handlers, in that list's order
(`self._function_convert_field_names` extends claims in collection
order). -/
def claimedNames : List HandlerDecl → List String
  | [] => []
  | h :: rest => h.2.1 ++ claimedNames rest

/-- A successfully constructed `ProtoConverter`. -/
structure ProtoConverter : Type where
  pbClassFrom : SchemaType
  pbClassTo : SchemaType
  fieldNamesToIgnore : List String
  unconvertedFields : List String
  convertFunctions : List Handler

/-- The `if DESCRIPTOR.oneofs:` guard around one direction of the oneof
validation in `_assert_all_fields_are_handled`. -/
def oneofGuard (srcPb destPb : SchemaType) (ignoredFields : List String) :
    Except ConfigError Unit :=
  if srcPb.oneofs.isEmpty then .ok ()
  else validateOneofFieldMultiMapping srcPb destPb ignoredFields

/-- The set difference
`set(self._unconverted_fields) - set(self._function_convert_field_names)`:
the unhandled names that no handler claims (the contents of the
construction-time error message). -/
def remainingUnhandled (pbClassFrom pbClassTo : SchemaType)
    (fieldNamesToIgnore claims : List String) : List String :=
  (getUnhandledFields pbClassFrom.fields pbClassTo.fields
      fieldNamesToIgnore).filter (fun n => !claims.contains n)

/-- The constructor (`__init__` followed by
`_assert_all_fields_are_handled`): collect the handlers and their claimed
names, compute the unconverted fields, run both oneof validations, and fail
with the enumerated unhandled names when any remain. -/
def mkProtoConverter (pbClassFrom pbClassTo : SchemaType)
    (fieldNamesToIgnore : List String)
    (handlers : List HandlerDecl) :
    Except ConfigError ProtoConverter :=
  match oneofGuard pbClassFrom pbClassTo fieldNamesToIgnore with
  | .error e => .error e
  | .ok _ =>
    match oneofGuard pbClassTo pbClassFrom fieldNamesToIgnore with
    | .error e => .error e
    | .ok _ =>
      let remaining := remainingUnhandled pbClassFrom pbClassTo
        fieldNamesToIgnore (claimedNames (collectHandlers handlers))
      if remaining.isEmpty then
        .ok ⟨pbClassFrom, pbClassTo, fieldNamesToIgnore,
          getUnhandledFields pbClassFrom.fields pbClassTo.fields
            fieldNamesToIgnore,
          (collectHandlers handlers).map (fun h => h.2.2)⟩
      else
        .error (.unhandledFields remaining)

/-- Call-time errors of `convert`: the `TypeError` raised by the explicit
type check, and runtime exceptions propagating out of `_auto_convert`. -/
inductive ConvertError : Type where
  | typeMismatch (actual expected : String) : ConvertError
  | runtime (msg : String) : ConvertError
deriving DecidableEq

/-- `ProtoConverter.convert`: the type-name precondition check, a fresh
destination instance, the automatic copy, then every registered handler in
registration order. -/
def ProtoConverter.convert (pool : String → Option SchemaType)
    (c : ProtoConverter) (srcProto : PMsg) : Except ConvertError PMsg :=
  if srcProto.schema.fullName != c.pbClassFrom.fullName then
    .error (.typeMismatch srcProto.schema.fullName c.pbClassFrom.fullName)
  else
    match autoConvert pool c.fieldNamesToIgnore c.unconvertedFields
        c.pbClassTo srcProto (PMsg.mk c.pbClassTo []) with
    | .error s => .error (.runtime s)
    | .ok dest =>
      .ok (c.convertFunctions.foldl (fun d f => f srcProto d) dest)

/-! ## Instance conformance (what it means to be a well-typed populated
instance of a schema, as the external reflection system guarantees) -/

/-- A populated any-wrapper value is coherent with the registry: its carried
type name resolves to a schema whose full name is that type name, and the
boxed payload is an instance of that type. -/
def anyCoherent (pool : String → Option SchemaType) : PVal → Bool
  | .anyV t p =>
    match pool t with
    | some s => s.fullName == t && p.schema.fullName == t
    | none => false
  | _ => false

/-- Map keys are pairwise distinct (true of every protobuf map). -/
def nodupKeys : List (Nat × PVal) → Bool
  | [] => true
  | (k, _) :: rest => !(rest.any (fun kv => kv.1 == k)) && nodupKeys rest

/-- Populated field names are pairwise distinct (true of `ListFields`). -/
def nodupNames : List (String × PField) → Bool
  | [] => true
  | (n, _) :: rest => !(rest.any (fun p => p.1 == n)) && nodupNames rest

/-- One populated field value conforms to its declaring schema `t`: the name
has a descriptor, the value's shape matches the descriptor (map, repeated,
or singular), map entry types expose a `value` sub-field and the map has
distinct keys, and elements of a repeated any-wrapper field are
registry-coherent boxes. -/
def conformsField (pool : String → Option SchemaType) (t : SchemaType)
    (n : String) (fv : PField) : Bool :=
  match findField t.fields n with
  | none => false
  | some d =>
    if isMapField d then
      match fv, d.messageType with
      | .mapF kvs, some sm =>
        (findField sm.fields "value").isSome && nodupKeys kvs
      | _, _ => false
    else if d.label == LABEL_REPEATED then
      match fv with
      | .repF vs => !isAnyField d || vs.all (anyCoherent pool)
      | _ => false
    else
      match fv with
      | .single _ => true
      | _ => false

/-- A populated instance conforms to its own schema. -/
def msgConforms (pool : String → Option SchemaType) (m : PMsg) : Bool :=
  nodupNames m.fields &&
    m.fields.all (fun p => conformsField pool m.schema p.1 p.2)

/-- No two oneof groups of a schema share a member field name without also
sharing the group name (true of protobuf: each field belongs to at most one
oneof, and group names are unique). -/
def oneofMembersConsistent (t : SchemaType) : Prop :=
  ∀ e1, e1 ∈ t.oneofs → ∀ e2, e2 ∈ t.oneofs →
    ∀ n, n ∈ e1.2 → n ∈ e2.2 → e1.1 = e2.1

instance (t : SchemaType) : Decidable (oneofMembersConsistent t) := by
  unfold oneofMembersConsistent
  infer_instance

/-! ## Spec-side vocabulary used to state the claims -/

/-- The spec's three-way field kind classification
(kind of `ftype`: message, enum, or scalar). -/
inductive FieldKind : Type where
  | scalar : FieldKind
  | enum : FieldKind
  | message : FieldKind
deriving DecidableEq

/-- The kind of a field descriptor, per the spec's data model. -/
def fieldKind (f : FieldDesc) : FieldKind :=
  if f.ftype == TYPE_MESSAGE then .message
  else if f.ftype == TYPE_ENUM then .enum
  else .scalar

/-- The spec's "auto-convertible field names" set of a schema pair. -/
def autoConvertibleNames (srcFields destFields : List FieldDesc) :
    List String :=
  (srcFields.filter (fun f => isAutoConvertible f destFields)).map
    FieldDesc.name

/-! ## Concrete fixtures used by witnesses and counterexamples -/

/-- The well-known Any descriptor, as a model object. -/
def anyDescriptor : SchemaType :=
  .mk anyTypeId "Any" "google.protobuf.Any" false false [] []

/-- A concrete plain message type `pkg.Inner` with one scalar field. -/
def exInnerS : SchemaType :=
  .mk 5 "Inner" "pkg.Inner" false false [.mk "x" 1 5 none] []

/-- A structural twin of `exInnerS` that is a distinct descriptor object
(different identity). -/
def exInnerTwinS : SchemaType :=
  .mk 6 "Inner" "pkg.Inner" false false [.mk "x" 1 5 none] []

/-- A singular message field typed by `exInnerS`. -/
def exMsgField : FieldDesc := .mk "m" 1 11 (some exInnerS)

/-- A singular any-wrapper field named like `exMsgField`. -/
def exAnyMsgField : FieldDesc := .mk "m" 1 11 (some anyDescriptor)

/-- A singular int64 field (`TYPE_INT64 = 3`). -/
def exInt64Field : FieldDesc := .mk "a" 1 3 none

/-- A singular int32 field (`TYPE_INT32 = 5`) with the same name. -/
def exInt32Field : FieldDesc := .mk "a" 1 5 none

/-- A source type `pkg.A` with scalar fields `a`, `b` grouped in the oneof
`g`. -/
def exOneofSrcS : SchemaType :=
  .mk 10 "A" "pkg.A" false false
    [.mk "a" 1 9 none, .mk "b" 1 9 none] [("g", ["a", "b"])]

/-- A destination type `pkg.B` with independent plain fields `a`, `b`. -/
def exPlainDestS : SchemaType :=
  .mk 11 "B" "pkg.B" false false
    [.mk "a" 1 9 none, .mk "b" 1 9 none] []

/-- A type `pkg.D` with a single scalar field `f`. -/
def exSingleFieldS : SchemaType :=
  .mk 14 "D" "pkg.D" false false [.mk "f" 1 9 none] []

/-- A source type `pkg.C` with scalar fields `a` and `seller`; `seller` has
no counterpart in `exPlainDestS`. -/
def exSellerSrcS : SchemaType :=
  .mk 13 "C" "pkg.C" false false
    [.mk "a" 1 9 none, .mk "seller" 1 9 none] []

/-- A source type `pkg.A2` with two oneof groups `g1 = {a, b}` and
`g2 = {c, d}`. -/
def exTwoOneofSrcS : SchemaType :=
  .mk 15 "A2" "pkg.A2" false false
    [.mk "a" 1 9 none, .mk "b" 1 9 none, .mk "c" 1 9 none, .mk "d" 1 9 none]
    [("g1", ["a", "b"]), ("g2", ["c", "d"])]

/-- A destination type `pkg.B3` with independent plain fields
`a`, `b`, `c`, `d`. -/
def exPlainDest4S : SchemaType :=
  .mk 16 "B3" "pkg.B3" false false
    [.mk "a" 1 9 none, .mk "b" 1 9 none, .mk "c" 1 9 none, .mk "d" 1 9 none]
    []

/-- A concrete instance of `pkg.Inner` with `x = 42`. -/
def exInnerM : PMsg := .mk exInnerS [("x", .single (.prim 42))]

/-- A registry resolving exactly `pkg.Inner`. -/
def exPool : String → Option SchemaType :=
  fun n => if n == "pkg.Inner" then some exInnerS else none

/-- A type `pkg.F` with one repeated any-wrapper field `xs`. -/
def exAnyRepS : SchemaType :=
  .mk 18 "F" "pkg.F" false false [.mk "xs" 3 11 (some anyDescriptor)] []

/-- An instance of `pkg.F` whose `xs` holds one boxed `pkg.Inner`. -/
def exAnyRepM : PMsg :=
  .mk exAnyRepS [("xs", .repF [.anyV "pkg.Inner" exInnerM])]

/-- A map entry type `<key: int32, value: pkg.Inner>`. -/
def exEntryS : SchemaType :=
  .mk 7 "MapEntry" "pkg.E.MapEntry" true true
    [.mk "key" 1 5 none, .mk "value" 1 11 (some exInnerS)] []

/-- A rich type `pkg.E` with a scalar, a repeated any-wrapper, a singular
message, and a map field, and one oneof group. -/
def exRoundS : SchemaType :=
  .mk 17 "E" "pkg.E" false false
    [.mk "s" 1 9 none, .mk "xs" 3 11 (some anyDescriptor),
     .mk "m" 1 11 (some exInnerS), .mk "mp" 3 11 (some exEntryS)]
    [("g", ["s", "m"])]

/-- A populated instance of `pkg.E` exercising all four field shapes. -/
def exRoundM : PMsg :=
  .mk exRoundS
    [("s", .single (.prim 7)),
     ("xs", .repF [.anyV "pkg.Inner" exInnerM]),
     ("m", .single (.emb exInnerM)),
     ("mp", .mapF [(1, .emb exInnerM), (2, .emb exInnerM)])]

/-- A concrete handler writing `u := 1`. -/
def exHandler1 : Handler := fun _ d => setField d "u" (.single (.prim 1))

/-- A concrete handler writing `u := 2`. -/
def exHandler2 : Handler := fun _ d => setField d "u" (.single (.prim 2))

/-- A handler declared first, on a method named `b_first`. -/
def exDeclB : HandlerDecl := ("b_first", [], exHandler1)

/-- A handler declared second, on a method named `a_second`. -/
def exDeclA : HandlerDecl := ("a_second", [], exHandler2)

/-- An empty registry. -/
def emptyPool : String → Option SchemaType := fun _ => none

/-! ## Helper lemmas -/

theorem schemaSize_messageType_lt (f : FieldDesc) (m : SchemaType)
    (h : f.messageType = some m) : schemaSize m < fieldSize f := by
  cases f with
  | mk n l t mt =>
    cases mt with
    | none => simp [FieldDesc.messageType] at h
    | some m2 =>
      simp [FieldDesc.messageType] at h
      subst h
      simp [fieldSize]

theorem fieldsSize_lt_schemaSize (s : SchemaType) :
    fieldsSize s.fields < schemaSize s := by
  cases s with
  | mk i n fn ho me fs os =>
    simp [SchemaType.fields, schemaSize]

theorem fieldSize_lt_of_mem {f : FieldDesc} {fs : List FieldDesc}
    (h : f ∈ fs) : fieldSize f < fieldsSize fs := by
  induction fs with
  | nil => cases h
  | cons g rest ih =>
    rcases List.mem_cons.mp h with h1 | h2
    · subst h1
      simp [fieldsSize]
      omega
    · have := ih h2
      simp [fieldsSize]
      omega

theorem fieldSize_pos (f : FieldDesc) : 0 < fieldSize f := by
  cases f with
  | mk n l t mt => cases mt <;> simp [fieldSize]

/-- Any fuel of at least `fieldSize src` computes the same value: the
fuel-exhaustion branch of `isAutoConvertibleF` is unreachable. -/
theorem isAutoConvertibleF_congr :
    ∀ (fuel fuel2 : Nat) (src : FieldDesc) (destFields : List FieldDesc),
      fieldSize src ≤ fuel → fieldSize src ≤ fuel2 →
      isAutoConvertibleF fuel src destFields =
        isAutoConvertibleF fuel2 src destFields := by
  intro fuel
  induction fuel with
  | zero =>
    intro fuel2 src destFields h1 _
    have := fieldSize_pos src
    omega
  | succ n ih =>
    intro fuel2 src destFields h1 h2
    have hpos := fieldSize_pos src
    obtain ⟨m, rfl⟩ : ∃ m, fuel2 = m + 1 := ⟨fuel2 - 1, by omega⟩
    simp only [isAutoConvertibleF]
    split
    · rfl
    · rename_i dest hfind
      split
      · rfl
      · split
        · split
          · rfl
          · rename_i sm hsm
            split
            · rfl
            · rename_i dm hdm
              split
              · rename_i kf vf hk hv
                have hkmem : kf ∈ sm.fields := List.mem_of_find?_eq_some hk
                have hvmem : vf ∈ sm.fields := List.mem_of_find?_eq_some hv
                have hk1 : fieldSize kf < fieldsSize sm.fields :=
                  fieldSize_lt_of_mem hkmem
                have hv1 : fieldSize vf < fieldsSize sm.fields :=
                  fieldSize_lt_of_mem hvmem
                have h3 : fieldsSize sm.fields < schemaSize sm :=
                  fieldsSize_lt_schemaSize sm
                have h4 : schemaSize sm < fieldSize src :=
                  schemaSize_messageType_lt src sm hsm
                rw [ih m kf dm.fields (by omega) (by omega),
                  ih m vf dm.fields (by omega) (by omega)]
              · rfl
              · rfl
        · rfl


theorem fieldSize_succ (src : FieldDesc) :
    ∃ k, fieldSize src = k + 1 :=
  ⟨fieldSize src - 1, by have := fieldSize_pos src; omega⟩

theorem isMapField_of_not_repeated (src : FieldDesc)
    (h : src.label ≠ LABEL_REPEATED) : isMapField src = false := by
  have : (src.label == LABEL_REPEATED) = false := by
    simp [LABEL_REPEATED] at h ⊢
    omega
  simp [isMapField, this]

/-! ## Claim theorems -/

/-- C1 (confirmed): for a singular message-kind source field whose name is
found among the destination fields, with matching repetition label and
matching (message) kind, and with both nested types present:
auto-convertibility is — both nested types any-wrapper: true; only the
source any-wrapper: false; only the destination any-wrapper: true;
otherwise true iff the nested schema types are identical by identity
(id equality). -/
theorem c1_singular_message_auto_convertible
    (src dest : FieldDesc) (destFields : List FieldDesc) (sm dm : SchemaType)
    (hfind : findField destFields src.name = some dest)
    (hlabel : dest.label = src.label)
    (hsing : src.label ≠ LABEL_REPEATED)
    (hst : src.ftype = TYPE_MESSAGE)
    (hdt : dest.ftype = TYPE_MESSAGE)
    (hsm : src.messageType = some sm)
    (hdm : dest.messageType = some dm) :
    isAutoConvertible src destFields =
      (if isAnySchema sm && isAnySchema dm then true
       else if isAnySchema sm then false
       else if isAnySchema dm then true
       else sm.id == dm.id) := by
  obtain ⟨k, hk⟩ := fieldSize_succ src
  have hmap : isMapField src = false := isMapField_of_not_repeated src hsing
  have hcond : (dest.label != src.label || src.ftype != dest.ftype) = false := by
    simp [hlabel, hst, hdt]
  have hmsg : (src.ftype == TYPE_MESSAGE) = true := by simp [hst]
  have hsany : isAnyField src = isAnySchema sm := by simp [isAnyField, hsm]
  have hdany : isAnyField dest = isAnySchema dm := by simp [isAnyField, hdm]
  have hsame : sameMessageType src dest = (sm.id == dm.id) := by
    simp [sameMessageType, hsm, hdm]
  rw [isAutoConvertible, hk]
  simp only [isAutoConvertibleF, hfind, hcond, hmap, hmsg, hsany, hdany, hsame]
  simp

/-- Witness for C1 at concrete inputs: a plain nested type boxed to the
destination's any-wrapper field (convertible), and two structurally equal
but distinct nested types (not convertible). -/
theorem c1_witness :
    (findField [exAnyMsgField] exMsgField.name = some exAnyMsgField ∧
      isAutoConvertible exMsgField [exAnyMsgField] =
        (if isAnySchema exInnerS && isAnySchema anyDescriptor then true
         else if isAnySchema exInnerS then false
         else if isAnySchema anyDescriptor then true
         else exInnerS.id == anyDescriptor.id)) ∧
    isAutoConvertible exMsgField
        [FieldDesc.mk "m" 1 11 (some exInnerTwinS)] = false :=
  ⟨⟨rfl,
    c1_singular_message_auto_convertible exMsgField exAnyMsgField
      [exAnyMsgField] exInnerS anyDescriptor rfl rfl (by decide) rfl rfl rfl
      rfl⟩,
    rfl⟩

/-- Counterexample for C8: an int64 source field and an int32 destination
field share the name `a`, the label, and the scalar kind, yet the analyzer
rejects them — the source compares full declared types, not kinds. -/
theorem c8_counterexample :
    findField [exInt32Field] exInt64Field.name = some exInt32Field ∧
    exInt64Field.label = exInt32Field.label ∧
    fieldKind exInt64Field = fieldKind exInt32Field ∧
    fieldKind exInt64Field = FieldKind.scalar ∧
    isAutoConvertible exInt64Field [exInt32Field] = false :=
  ⟨rfl, rfl, rfl, rfl, rfl⟩

/-- C8 (amended): for a source field of scalar or enum kind whose name is
found among the destination fields, auto-convertibility holds iff the
repetition labels agree and the full declared types (not merely the
scalar/enum/message kinds) agree. -/
theorem c8_scalar_enum_auto_convertible
    (src dest : FieldDesc) (destFields : List FieldDesc)
    (hfind : findField destFields src.name = some dest)
    (hnotmsg : src.ftype ≠ TYPE_MESSAGE) :
    isAutoConvertible src destFields =
      (dest.label == src.label && src.ftype == dest.ftype) := by
  obtain ⟨k, hk⟩ := fieldSize_succ src
  rw [isAutoConvertible, hk]
  simp only [isAutoConvertibleF, hfind]
  by_cases hcond : (dest.label != src.label || src.ftype != dest.ftype) = true
  · rw [if_pos hcond]
    rcases Bool.or_eq_true_iff.mp hcond with h | h <;>
      simp [bne_iff_ne] at h <;> simp [h]
  · rw [if_neg hcond]
    simp only [Bool.or_eq_true, not_or, Bool.not_eq_true, bne_eq_false_iff_eq]
      at hcond
    obtain ⟨h1, h2⟩ := hcond
    have hmap : isMapField src = false := by
      simp [isMapField]
      intro _ hmt
      exact absurd hmt hnotmsg
    have hmsg : (src.ftype == TYPE_MESSAGE) = false := by
      simp [hnotmsg]
    simp only [hmap, hmsg]
    simp [h1, h2]

/-- Witness for C8's amended theorem: an int64 field converts to an int64
field of the same name. -/
theorem c8_witness :
    findField [exInt64Field] exInt64Field.name = some exInt64Field ∧
    isAutoConvertible exInt64Field [exInt64Field] =
      (exInt64Field.label == exInt64Field.label &&
        exInt64Field.ftype == exInt64Field.ftype) :=
  ⟨rfl,
    c8_scalar_enum_auto_convertible exInt64Field exInt64Field [exInt64Field]
      rfl (by decide)⟩

/-! ## Lemmas about the unhandled-field computation and construction -/

theorem mem_getUnhandledFields
    (srcFields destFields : List FieldDesc) (ignore : List String)
    (n : String) :
    n ∈ getUnhandledFields srcFields destFields ignore ↔
      ∃ f, f ∈ srcFields ∧ f.name = n ∧ ignore.contains f.name = false ∧
        isAutoConvertible f destFields = false := by
  induction srcFields with
  | nil =>
    simp [getUnhandledFields]
  | cons f rest ih =>
    rw [getUnhandledFields]
    by_cases hig : ignore.contains f.name = true
    · rw [if_pos hig, ih]
      constructor
      · rintro ⟨g, hg, rest_eq⟩
        exact ⟨g, List.mem_cons_of_mem f hg, rest_eq⟩
      · rintro ⟨g, hg, hn, hni, hna⟩
        rcases List.mem_cons.mp hg with h1 | h2
        · subst h1
          rw [hig] at hni
          cases hni
        · exact ⟨g, h2, hn, hni, hna⟩
    · rw [if_neg hig]
      rw [Bool.not_eq_true] at hig
      by_cases hauto : isAutoConvertible f destFields = true
      · rw [if_pos hauto, ih]
        constructor
        · rintro ⟨g, hg, rest_eq⟩
          exact ⟨g, List.mem_cons_of_mem f hg, rest_eq⟩
        · rintro ⟨g, hg, hn, hni, hna⟩
          rcases List.mem_cons.mp hg with h1 | h2
          · subst h1
            rw [hauto] at hna
            cases hna
          · exact ⟨g, h2, hn, hni, hna⟩
      · rw [Bool.not_eq_true] at hauto
        rw [if_neg (by simp [hauto])]
        rw [List.mem_cons, ih]
        constructor
        · rintro (h1 | ⟨g, hg, rest_eq⟩)
          · exact ⟨f, List.mem_cons_self f rest, h1.symm, hig, hauto⟩
          · exact ⟨g, List.mem_cons_of_mem f hg, rest_eq⟩
        · rintro ⟨g, hg, hn, hni, hna⟩
          rcases List.mem_cons.mp hg with h1 | h2
          · subst h1
            exact Or.inl hn.symm
          · exact Or.inr ⟨g, h2, hn, hni, hna⟩

theorem getUnhandledFields_subset_names
    (srcFields destFields : List FieldDesc) (ignore : List String)
    (n : String) (h : n ∈ getUnhandledFields srcFields destFields ignore) :
    n ∈ srcFields.map FieldDesc.name := by
  obtain ⟨f, hf, hn, _, _⟩ :=
    (mem_getUnhandledFields srcFields destFields ignore n).mp h
  exact List.mem_map.mpr ⟨f, hf, hn⟩

theorem getUnhandledFields_junk_ignored
    (srcFields destFields : List FieldDesc) (ignore : List String)
    (junk : String) (hjunk : junk ∉ srcFields.map FieldDesc.name) :
    getUnhandledFields srcFields destFields (junk :: ignore) =
      getUnhandledFields srcFields destFields ignore := by
  induction srcFields with
  | nil => rfl
  | cons f rest ih =>
    have hname : f.name ≠ junk := by
      intro h
      exact hjunk (List.mem_map.mpr ⟨f, List.mem_cons_self f rest, h⟩)
    have hrest : junk ∉ rest.map FieldDesc.name := by
      intro h
      exact hjunk (List.mem_cons_of_mem _ h)
    have hcontains : (junk :: ignore).contains f.name = ignore.contains f.name := by
      have hne : (f.name == junk) = false := by
        simp [hname]
      simp [List.contains_cons, hne]
      intro h
      rw [h] at hne
      simp at hne
    rw [getUnhandledFields, getUnhandledFields, hcontains, ih hrest]

theorem validateOneofs_error_shape
    (srcName : String) (dict : List (String × String))
    (destFieldNames ignored : List String)
    (groups : List (String × List String)) (e : ConfigError)
    (h : validateOneofs srcName dict destFieldNames ignored groups =
      .error e) :
    ∃ g ms, (g, ms) ∈ groups ∧ e = .oneofMultiMapping g srcName ∧
      (mappedFields dict destFieldNames ignored ms).length > 1 := by
  induction groups with
  | nil => cases h
  | cons gp rest ih =>
    obtain ⟨g, ms⟩ := gp
    rw [validateOneofs] at h
    by_cases hlen : (mappedFields dict destFieldNames ignored ms).length > 1
    · rw [if_pos hlen] at h
      injection h with h2
      exact ⟨g, ms, List.mem_cons_self _ _, h2.symm, hlen⟩
    · rw [if_neg hlen] at h
      obtain ⟨g2, ms2, hmem, he, hl⟩ := ih h
      exact ⟨g2, ms2, List.mem_cons_of_mem _ hmem, he, hl⟩

theorem validateOneofs_error_of_violation
    (srcName : String) (dict : List (String × String))
    (destFieldNames ignored : List String)
    (groups : List (String × List String)) (g : String) (ms : List String)
    (hmem : (g, ms) ∈ groups)
    (hlen : (mappedFields dict destFieldNames ignored ms).length > 1) :
    ∃ e, validateOneofs srcName dict destFieldNames ignored groups =
      .error e := by
  induction groups with
  | nil => cases hmem
  | cons gp rest ih =>
    obtain ⟨g2, ms2⟩ := gp
    rw [validateOneofs]
    by_cases h2 : (mappedFields dict destFieldNames ignored ms2).length > 1
    · rw [if_pos h2]
      exact ⟨_, rfl⟩
    · rw [if_neg h2]
      rcases List.mem_cons.mp hmem with h1 | h1

      · injection h1 with ha hb
        subst ha
        subst hb
        exact absurd hlen h2
      · exact ih h1

theorem oneofGuard_error_shape (srcPb destPb : SchemaType)
    (ignored : List String) (e : ConfigError)
    (h : oneofGuard srcPb destPb ignored = .error e) :
    ∃ g ms, (g, ms) ∈ srcPb.oneofs ∧ e = .oneofMultiMapping g srcPb.name ∧
      (mappedFields (getFieldsToOneofDict destPb.oneofs)
        (destPb.fields.map FieldDesc.name) ignored ms).length > 1 := by
  rw [oneofGuard] at h
  by_cases hempty : srcPb.oneofs.isEmpty
  · rw [if_pos hempty] at h
    cases h
  · rw [if_neg hempty] at h
    exact validateOneofs_error_shape _ _ _ _ _ _ h

/-! ## The handler-collection order: `collectHandlers` is a by-name-sorted
permutation of the declared handlers, and claims survive collection -/

theorem perm_orderedInsertH (h : HandlerDecl) (l : List HandlerDecl) :
    List.Perm (orderedInsertH h l) (h :: l) := by
  induction l with
  | nil => exact List.Perm.refl _
  | cons h2 rest ih =>
    rw [orderedInsertH]
    by_cases hc : nameLe h.1 h2.1 = true
    · rw [if_pos hc]
    · rw [if_neg hc]
      exact (ih.cons h2).trans (List.Perm.swap h h2 rest)

theorem perm_collectHandlers (l : List HandlerDecl) :
    List.Perm (collectHandlers l) l := by
  induction l with
  | nil => exact List.Perm.refl _
  | cons h rest ih =>
    rw [collectHandlers]
    exact (perm_orderedInsertH h (collectHandlers rest)).trans (ih.cons h)

theorem charsLe_total (as bs : List Char) :
    charsLe as bs = true ∨ charsLe bs as = true := by
  induction as generalizing bs with
  | nil => exact Or.inl rfl
  | cons c cs ih =>
    cases bs with
    | nil => exact Or.inr rfl
    | cons d ds =>
      rcases Nat.lt_trichotomy c.toNat d.toNat with h | h | h
      · exact Or.inl (by rw [charsLe, if_pos h])
      · have e1 : charsLe (c :: cs) (d :: ds) = charsLe cs ds := by
          rw [charsLe, if_neg (by omega), if_neg (by omega)]
        have e2 : charsLe (d :: ds) (c :: cs) = charsLe ds cs := by
          rw [charsLe, if_neg (by omega), if_neg (by omega)]
        rw [e1, e2]
        exact ih ds
      · exact Or.inr (by rw [charsLe, if_pos h])

theorem charsLe_trans (as bs cs : List Char)
    (h1 : charsLe as bs = true) (h2 : charsLe bs cs = true) :
    charsLe as cs = true := by
  induction as generalizing bs cs with
  | nil => rfl
  | cons a as2 ih =>
    cases bs with
    | nil => cases h1
    | cons b bs2 =>
      cases cs with
      | nil => cases h2
      | cons c cs2 =>
        rw [charsLe] at h1 h2 ⊢
        by_cases hab : a.toNat < b.toNat
        · by_cases hbc : b.toNat < c.toNat
          · rw [if_pos (by omega)]
          · by_cases hcb : c.toNat < b.toNat
            · rw [if_neg hbc, if_pos hcb] at h2
              cases h2
            · rw [if_pos (by omega)]
        · by_cases hba : b.toNat < a.toNat
          · rw [if_neg hab, if_pos hba] at h1
            cases h1
          · rw [if_neg hab, if_neg hba] at h1
            by_cases hbc : b.toNat < c.toNat
            · rw [if_pos (by omega)]
            · by_cases hcb : c.toNat < b.toNat
              · rw [if_neg hbc, if_pos hcb] at h2
                cases h2
              · rw [if_neg hbc, if_neg hcb] at h2
                rw [if_neg (by omega), if_neg (by omega)]
                exact ih bs2 cs2 h1 h2

theorem nameLe_total (a b : String) :
    nameLe a b = true ∨ nameLe b a = true :=
  charsLe_total a.data b.data

theorem nameLe_trans (a b c : String)
    (h1 : nameLe a b = true) (h2 : nameLe b c = true) :
    nameLe a c = true :=
  charsLe_trans a.data b.data c.data h1 h2

theorem sorted_orderedInsertH (h : HandlerDecl) (l : List HandlerDecl)
    (hs : List.Pairwise (fun a b => nameLe a.1 b.1 = true) l) :
    List.Pairwise (fun a b => nameLe a.1 b.1 = true) (orderedInsertH h l) := by
  induction l with
  | nil => exact List.pairwise_singleton _ _
  | cons h2 rest ih =>
    rw [List.pairwise_cons] at hs
    obtain ⟨hh2, hrest⟩ := hs
    rw [orderedInsertH]
    by_cases hc : nameLe h.1 h2.1 = true
    · rw [if_pos hc]
      rw [List.pairwise_cons]
      refine ⟨?_, List.pairwise_cons.mpr ⟨hh2, hrest⟩⟩
      intro x hx
      rcases List.mem_cons.mp hx with h1 | h1
      · subst h1
        exact hc
      · exact nameLe_trans _ _ _ hc (hh2 x h1)
    · rw [if_neg hc]
      rw [List.pairwise_cons]
      refine ⟨?_, ih hrest⟩
      intro x hx
      rcases List.mem_cons.mp ((perm_orderedInsertH h rest).mem_iff.mp hx)
        with h1 | h1
      · rw [h1]
        rcases nameLe_total h.1 h2.1 with ht | ht
        · exact absurd ht hc
        · exact ht
      · exact hh2 x h1

theorem sorted_collectHandlers (l : List HandlerDecl) :
    List.Pairwise (fun a b => nameLe a.1 b.1 = true) (collectHandlers l) := by
  induction l with
  | nil => exact List.Pairwise.nil
  | cons h rest ih =>
    rw [collectHandlers]
    exact sorted_orderedInsertH h (collectHandlers rest) ih

theorem mem_claimedNames (l : List HandlerDecl) (n : String) :
    n ∈ claimedNames l ↔ ∃ h, h ∈ l ∧ n ∈ h.2.1 := by
  induction l with
  | nil =>
    constructor
    · intro hmem
      cases hmem
    · rintro ⟨h2, hm, _⟩
      cases hm
  | cons h rest ih =>
    rw [claimedNames, List.mem_append, ih]
    constructor
    · rintro (h1 | ⟨h2, hm, hn⟩)
      · exact ⟨h, List.mem_cons_self _ _, h1⟩
      · exact ⟨h2, List.mem_cons_of_mem _ hm, hn⟩
    · rintro ⟨h2, hm, hn⟩
      rcases List.mem_cons.mp hm with h1 | h1
      · subst h1
        exact Or.inl hn
      · exact Or.inr ⟨h2, h1, hn⟩

theorem mem_claimedNames_collect (hs : List HandlerDecl) (n : String) :
    n ∈ claimedNames (collectHandlers hs) ↔ n ∈ claimedNames hs := by
  rw [mem_claimedNames, mem_claimedNames]
  constructor
  · rintro ⟨h, hm, hn⟩
    exact ⟨h, (perm_collectHandlers hs).mem_iff.mp hm, hn⟩
  · rintro ⟨h, hm, hn⟩
    exact ⟨h, (perm_collectHandlers hs).mem_iff.mpr hm, hn⟩

theorem contains_claimedNames_collect (hs : List HandlerDecl) (n : String) :
    (claimedNames (collectHandlers hs)).contains n =
      (claimedNames hs).contains n := by
  by_cases h : n ∈ claimedNames hs
  · have h2 : n ∈ claimedNames (collectHandlers hs) :=
      (mem_claimedNames_collect hs n).mpr h
    show List.elem n (claimedNames (collectHandlers hs)) =
      List.elem n (claimedNames hs)
    rw [List.elem_eq_true_of_mem h, List.elem_eq_true_of_mem h2]
  · have h2 : n ∉ claimedNames (collectHandlers hs) :=
      fun hm => h ((mem_claimedNames_collect hs n).mp hm)
    have e1 : (claimedNames (collectHandlers hs)).contains n = false := by
      simpa using h2
    have e2 : (claimedNames hs).contains n = false := by
      simpa using h
    rw [e1, e2]

/-- The filtered error-name set does not depend on the collection order of
the handler claims, only on their membership. -/
theorem remainingUnhandled_collect (pbFrom pbTo : SchemaType)
    (ignore : List String) (hs : List HandlerDecl) :
    remainingUnhandled pbFrom pbTo ignore
        (claimedNames (collectHandlers hs)) =
      remainingUnhandled pbFrom pbTo ignore (claimedNames hs) := by
  rw [remainingUnhandled, remainingUnhandled]
  apply List.filter_congr
  intro n _
  rw [contains_claimedNames_collect]

/-- Inversion of the constructor at a successful construction: the
remaining-unhandled set was empty. -/
theorem mk_ok_inv (pbFrom pbTo : SchemaType) (ignore : List String)
    (handlers : List HandlerDecl) (c : ProtoConverter)
    (h : mkProtoConverter pbFrom pbTo ignore handlers = .ok c) :
    remainingUnhandled pbFrom pbTo ignore (claimedNames handlers) = [] := by
  rw [mkProtoConverter] at h
  rw [remainingUnhandled_collect] at h
  cases h1 : oneofGuard pbFrom pbTo ignore with
  | error e => rw [h1] at h; cases h
  | ok u =>
    rw [h1] at h
    cases h2 : oneofGuard pbTo pbFrom ignore with
    | error e => rw [h2] at h; cases h
    | ok u2 =>
      rw [h2] at h
      by_cases h3 :
          (remainingUnhandled pbFrom pbTo ignore
            (claimedNames handlers)).isEmpty
      · exact List.isEmpty_iff.mp h3
      · simp only [h3] at h
        rw [if_neg (by simp [h3])] at h
        cases h

/-- Inversion of the constructor at an unhandled-fields error: the names
are exactly the remaining-unhandled set, which is non-empty. -/
theorem mk_error_unhandled_inv (pbFrom pbTo : SchemaType)
    (ignore : List String) (handlers : List HandlerDecl)
    (ns : List String)
    (h : mkProtoConverter pbFrom pbTo ignore handlers =
      .error (.unhandledFields ns)) :
    ns = remainingUnhandled pbFrom pbTo ignore (claimedNames handlers) ∧
      ns ≠ [] := by
  rw [mkProtoConverter] at h
  rw [remainingUnhandled_collect] at h
  cases h1 : oneofGuard pbFrom pbTo ignore with
  | error e =>
    rw [h1] at h
    injection h with h2
    obtain ⟨g, ms, _, he, _⟩ := oneofGuard_error_shape _ _ _ _ h1
    rw [he] at h2
    cases h2
  | ok u =>
    rw [h1] at h
    cases h2 : oneofGuard pbTo pbFrom ignore with
    | error e =>
      rw [h2] at h
      injection h with h3
      obtain ⟨g, ms, _, he, _⟩ := oneofGuard_error_shape _ _ _ _ h2
      rw [he] at h3
      cases h3
    | ok u2 =>
      rw [h2] at h
      by_cases h3 :
          (remainingUnhandled pbFrom pbTo ignore
            (claimedNames handlers)).isEmpty
      · rw [if_pos h3] at h
        cases h
      · rw [if_neg h3] at h
        injection h with h4
        injection h4 with h5
        exact ⟨h5.symm, fun hnil => h3 (by rw [h5, hnil]; rfl)⟩

/-- The constructor raises the unhandled-fields error when both oneof
validations pass and the remaining set is non-empty. -/
theorem mk_error_unhandled_of (pbFrom pbTo : SchemaType)
    (ignore : List String) (handlers : List HandlerDecl)
    (hg1 : oneofGuard pbFrom pbTo ignore = .ok ())
    (hg2 : oneofGuard pbTo pbFrom ignore = .ok ())
    (hne : remainingUnhandled pbFrom pbTo ignore (claimedNames handlers) ≠ []) :
    mkProtoConverter pbFrom pbTo ignore handlers =
      .error (.unhandledFields
        (remainingUnhandled pbFrom pbTo ignore (claimedNames handlers))) := by
  rw [mkProtoConverter, hg1, hg2]
  rw [remainingUnhandled_collect]
  rw [if_neg (by simp [hne])]

/-- The constructor succeeds when both oneof validations pass and the
remaining set is empty. -/
theorem mk_ok_of (pbFrom pbTo : SchemaType)
    (ignore : List String) (handlers : List HandlerDecl)
    (hg1 : oneofGuard pbFrom pbTo ignore = .ok ())
    (hg2 : oneofGuard pbTo pbFrom ignore = .ok ())
    (he : remainingUnhandled pbFrom pbTo ignore (claimedNames handlers) = []) :
    mkProtoConverter pbFrom pbTo ignore handlers =
      .ok ⟨pbFrom, pbTo, ignore,
        getUnhandledFields pbFrom.fields pbTo.fields ignore,
        (collectHandlers handlers).map (fun h => h.2.2)⟩ := by
  rw [mkProtoConverter, hg1, hg2]
  rw [remainingUnhandled_collect]
  rw [if_pos (by rw [he]; rfl)]

/-- C10 (confirmed): construction performs no validation of the ignore-list
names or the handler-claimed names against the source schema.  For a name
that is not a source field name: adding it to the ignore list leaves the
unhandled-field computation unchanged; adding it to the handler claims
leaves the error-name set unchanged; it never appears in the
unhandled-field computation, and no unhandled-fields configuration error
ever mentions it. -/
theorem c10_no_validation_of_ignored_or_claimed_names
    (pbFrom pbTo : SchemaType) (ignore claims : List String) (junk : String)
    (hjunk : junk ∉ pbFrom.fields.map FieldDesc.name) :
    getUnhandledFields pbFrom.fields pbTo.fields (junk :: ignore) =
      getUnhandledFields pbFrom.fields pbTo.fields ignore ∧
    remainingUnhandled pbFrom pbTo ignore (junk :: claims) =
      remainingUnhandled pbFrom pbTo ignore claims ∧
    junk ∉ remainingUnhandled pbFrom pbTo ignore claims ∧
    (∀ (handlers : List HandlerDecl) (ns : List String),
      claimedNames handlers = claims →
      mkProtoConverter pbFrom pbTo ignore handlers =
        .error (.unhandledFields ns) →
      junk ∉ ns) := by
  have hsub : ∀ n, n ∈ getUnhandledFields pbFrom.fields pbTo.fields ignore →
      n ≠ junk := by
    intro n hn h
    subst h
    exact hjunk (getUnhandledFields_subset_names _ _ _ _ hn)
  have h2 : remainingUnhandled pbFrom pbTo ignore (junk :: claims) =
      remainingUnhandled pbFrom pbTo ignore claims := by
    rw [remainingUnhandled, remainingUnhandled]
    apply List.filter_congr
    intro n hn
    have hne : (n == junk) = false := by
      simp [hsub n hn]
    simp [List.contains_cons, hne]
    intro _
    exact hsub n hn
  have h3 : junk ∉ remainingUnhandled pbFrom pbTo ignore claims := by
    intro h
    have := List.mem_filter.mp h
    exact hsub junk this.1 rfl
  refine ⟨getUnhandledFields_junk_ignored _ _ _ _ hjunk, h2, h3, ?_⟩
  intro handlers ns hcl hmk
  obtain ⟨hns, _⟩ := mk_error_unhandled_inv _ _ _ _ _ hmk
  rw [hns, hcl]
  exact h3

/-- Witness for C10: a junk name `ghost` in the ignore list and the claims
does not change the computation for a real schema pair. -/
theorem c10_witness :
    "ghost" ∉ exSellerSrcS.fields.map FieldDesc.name ∧
    getUnhandledFields exSellerSrcS.fields exPlainDestS.fields ["ghost"] =
      getUnhandledFields exSellerSrcS.fields exPlainDestS.fields [] ∧
    remainingUnhandled exSellerSrcS exPlainDestS [] ["ghost"] =
      remainingUnhandled exSellerSrcS exPlainDestS [] [] ∧
    "ghost" ∉ remainingUnhandled exSellerSrcS exPlainDestS [] [] :=
  ⟨by decide,
    (c10_no_validation_of_ignored_or_claimed_names exSellerSrcS exPlainDestS
      [] [] "ghost" (by decide)).1,
    (c10_no_validation_of_ignored_or_claimed_names exSellerSrcS exPlainDestS
      [] [] "ghost" (by decide)).2.1,
    (c10_no_validation_of_ignored_or_claimed_names exSellerSrcS exPlainDestS
      [] [] "ghost" (by decide)).2.2.1⟩

/-- Counterexample for C2: with source oneof `g = {a, b}` fanning out to two
plain destination fields, construction raises a configuration error even
though the unhandled-field set (after subtracting handler claims) is empty,
so "raises a configuration error iff some field is unhandled" fails, and
the error names a group rather than enumerating field names. -/
theorem c2_counterexample :
    mkProtoConverter exOneofSrcS exPlainDestS [] [] =
      .error (.oneofMultiMapping "g" "A") ∧
    remainingUnhandled exOneofSrcS exPlainDestS [] [] = [] :=
  ⟨rfl, rfl⟩

/-- C2 (amended): provided neither discriminated-union validation fails,
construction raises a configuration error if and only if some source field
not in the ignore set is neither auto-convertible nor covered by a
registered handler's claimed field names, and the raised unhandled-fields
error enumerates exactly those offending field names. -/
theorem c2_unhandled_fields_error (pbFrom pbTo : SchemaType)
    (ignore : List String) (handlers : List HandlerDecl)
    (hg1 : oneofGuard pbFrom pbTo ignore = .ok ())
    (hg2 : oneofGuard pbTo pbFrom ignore = .ok ()) :
    ((∃ e, mkProtoConverter pbFrom pbTo ignore handlers = .error e) ↔
      ∃ f, f ∈ pbFrom.fields ∧ ignore.contains f.name = false ∧
        isAutoConvertible f pbTo.fields = false ∧
        (claimedNames handlers).contains f.name = false) ∧
    (∀ ns n,
      mkProtoConverter pbFrom pbTo ignore handlers =
        .error (.unhandledFields ns) →
      (n ∈ ns ↔ ∃ f, f ∈ pbFrom.fields ∧ f.name = n ∧
        ignore.contains f.name = false ∧
        isAutoConvertible f pbTo.fields = false ∧
        (claimedNames handlers).contains n = false)) := by
  have hmemrem : ∀ n,
      n ∈ remainingUnhandled pbFrom pbTo ignore (claimedNames handlers) ↔
      ∃ f, f ∈ pbFrom.fields ∧ f.name = n ∧
        ignore.contains f.name = false ∧
        isAutoConvertible f pbTo.fields = false ∧
        (claimedNames handlers).contains n = false := by
    intro n
    rw [remainingUnhandled, List.mem_filter, mem_getUnhandledFields]
    constructor
    · rintro ⟨⟨f, hf, hn, hig, hauto⟩, hcl⟩
      refine ⟨f, hf, hn, hig, hauto, ?_⟩
      simp at hcl
      simp [hcl]
    · rintro ⟨f, hf, hn, hig, hauto, hcl⟩
      exact ⟨⟨f, hf, hn, hig, hauto⟩, by
        simp only [Bool.not_eq_true']
        exact hcl⟩
  constructor
  · constructor
    · rintro ⟨e, he⟩
      by_cases hrem :
          remainingUnhandled pbFrom pbTo ignore (claimedNames handlers) = []
      · rw [mk_ok_of pbFrom pbTo ignore handlers hg1 hg2 hrem] at he
        cases he
      · obtain ⟨n, hn⟩ := List.exists_mem_of_ne_nil _ hrem
        obtain ⟨f, hf, hname, hig, hauto, hcl⟩ := (hmemrem n).mp hn
        exact ⟨f, hf, hig, hauto, by rw [hname]; exact hcl⟩
    · rintro ⟨f, hf, hig, hauto, hcl⟩
      have hn : f.name ∈
          remainingUnhandled pbFrom pbTo ignore (claimedNames handlers) :=
        (hmemrem f.name).mpr ⟨f, hf, rfl, hig, hauto, hcl⟩
      have hne :
          remainingUnhandled pbFrom pbTo ignore (claimedNames handlers) ≠ [] := by
        intro h
        rw [h] at hn
        cases hn
      exact ⟨_, mk_error_unhandled_of pbFrom pbTo ignore handlers hg1 hg2 hne⟩
  · intro ns n hmk
    obtain ⟨hns, _⟩ := mk_error_unhandled_inv _ _ _ _ _ hmk
    rw [hns]
    exact hmemrem n

/-- Witness for C2: source `pkg.C` has the field `seller` with no
destination counterpart, so construction fails. -/
theorem c2_witness :
    oneofGuard exSellerSrcS exPlainDestS [] = .ok () ∧
    oneofGuard exPlainDestS exSellerSrcS [] = .ok () ∧
    (∃ e, mkProtoConverter exSellerSrcS exPlainDestS [] [] = .error e) :=
  ⟨rfl, rfl,
    (c2_unhandled_fields_error exSellerSrcS exPlainDestS [] [] rfl rfl).1.mpr
      ⟨FieldDesc.mk "seller" 1 9 none,
        List.mem_cons_of_mem _ (List.mem_cons_self _ _), rfl, rfl, rfl⟩⟩

/-- Counterexample for C6: ignoring the auto-convertible field `f` still
constructs successfully, so the ignored set and the auto-convertible set
both contain `f` — the three sets are not pairwise disjoint. -/
theorem c6_counterexample :
    (mkProtoConverter exSingleFieldS exSingleFieldS ["f"] []).isOk = true ∧
    "f" ∈ (["f"] : List String) ∧
    "f" ∈ autoConvertibleNames exSingleFieldS.fields exSingleFieldS.fields :=
  ⟨rfl, by decide, by decide⟩

/-- C6 (amended): for every successfully constructed converter, every
source field name lies in the union of the ignored names, the
handler-claimed names, and the auto-convertible names (the union covers
the full set of source field names; the three sets need not be pairwise
disjoint). -/
theorem c6_completeness_union (pbFrom pbTo : SchemaType)
    (ignore : List String) (handlers : List HandlerDecl)
    (c : ProtoConverter)
    (h : mkProtoConverter pbFrom pbTo ignore handlers = .ok c) :
    ∀ f, f ∈ pbFrom.fields →
      ignore.contains f.name = true ∨
      (claimedNames handlers).contains f.name = true ∨
      f.name ∈ autoConvertibleNames pbFrom.fields pbTo.fields := by
  intro f hf
  by_cases hig : ignore.contains f.name = true
  · exact Or.inl hig
  · by_cases hauto : isAutoConvertible f pbTo.fields = true
    · exact Or.inr (Or.inr
        (List.mem_map.mpr ⟨f, List.mem_filter.mpr ⟨hf, hauto⟩, rfl⟩))
    · have hmem : f.name ∈
          getUnhandledFields pbFrom.fields pbTo.fields ignore :=
        (mem_getUnhandledFields _ _ _ _).mpr
          ⟨f, hf, rfl, Bool.not_eq_true _ ▸ hig,
            Bool.not_eq_true _ ▸ hauto⟩
      have hrem := mk_ok_inv _ _ _ _ _ h
      rw [remainingUnhandled] at hrem
      have := List.filter_eq_nil_iff.mp hrem f.name hmem
      simp at this
      exact Or.inr (Or.inl (by
        have h2 : f.name ∈ claimedNames handlers := this
        simpa [List.contains] using h2))

/-- Witness for C6's amended theorem: the identity pair on `pkg.B`
constructs, and both fields are auto-convertible. -/
theorem c6_witness :
    mkProtoConverter exPlainDestS exPlainDestS [] [] =
      .ok ⟨exPlainDestS, exPlainDestS, [], [], []⟩ ∧
    (∀ f, f ∈ exPlainDestS.fields →
      ([] : List String).contains f.name = true ∨
      (claimedNames []).contains f.name = true ∨
      f.name ∈ autoConvertibleNames exPlainDestS.fields exPlainDestS.fields) :=
  ⟨rfl, c6_completeness_union exPlainDestS exPlainDestS [] [] _ rfl⟩

/-- A violating oneof group on the source schema makes its oneof guard
fail with an error naming a group and the source schema. -/
theorem oneofGuard_error_of_violation (srcPb destPb : SchemaType)
    (ignored : List String) (g : String) (ms : List String)
    (hmem : (g, ms) ∈ srcPb.oneofs)
    (hlen : (mappedFields (getFieldsToOneofDict destPb.oneofs)
      (destPb.fields.map FieldDesc.name) ignored ms).length > 1) :
    ∃ g2, oneofGuard srcPb destPb ignored =
      .error (.oneofMultiMapping g2 srcPb.name) := by
  have hempty : srcPb.oneofs.isEmpty = false := by
    cases hos : srcPb.oneofs with
    | nil => rw [hos] at hmem; cases hmem
    | cons a rest => rfl
  rw [oneofGuard, hempty]
  simp only [Bool.false_eq_true, if_false]
  obtain ⟨e, he⟩ := validateOneofs_error_of_violation srcPb.name
    (getFieldsToOneofDict destPb.oneofs) (destPb.fields.map FieldDesc.name)
    ignored srcPb.oneofs g ms hmem hlen
  obtain ⟨g2, ms2, _, he2, _⟩ := validateOneofs_error_shape _ _ _ _ _ _ he
  rw [validateOneofFieldMultiMapping]
  exact ⟨g2, by rw [he, he2]⟩

/-- Counterexample for C3: with source oneofs `g1 = {a, b}` and
`g2 = {c, d}` both fanning out into plain destination fields, construction
fails naming only `g1`; the claim's biconditional fails for `g2`, whose
members also map to two distinct destination targets. -/
theorem c3_counterexample :
    mkProtoConverter exTwoOneofSrcS exPlainDest4S [] [] =
      .error (.oneofMultiMapping "g1" "A2") ∧
    ("g2", ["c", "d"]) ∈ exTwoOneofSrcS.oneofs ∧
    (mappedFields (getFieldsToOneofDict exPlainDest4S.oneofs)
      (exPlainDest4S.fields.map FieldDesc.name) [] ["c", "d"]).length > 1 ∧
    (ConfigError.oneofMultiMapping "g1" "A2") ≠ .oneofMultiMapping "g2" "A2" :=
  ⟨rfl, by decide, by decide, by decide⟩

theorem validateOneofs_eq_firstViolation (srcName : String)
    (dict : List (String × String)) (dfn ign : List String)
    (gs : List (String × List String)) :
    validateOneofs srcName dict dfn ign gs =
      (match firstViolation dict dfn ign gs with
       | some g => .error (.oneofMultiMapping g srcName)
       | none => .ok ()) := by
  induction gs with
  | nil => rfl
  | cons gp rest ih =>
    obtain ⟨g, ms⟩ := gp
    rw [validateOneofs, firstViolation]
    by_cases hv : (mappedFields dict dfn ign ms).length > 1
    · rw [if_pos hv, if_pos hv]
    · rw [if_neg hv, if_neg hv, ih]

theorem oneofGuard_eq_firstViolation (srcPb destPb : SchemaType)
    (ign : List String) :
    oneofGuard srcPb destPb ign =
      (match firstViolation (getFieldsToOneofDict destPb.oneofs)
          (destPb.fields.map FieldDesc.name) ign srcPb.oneofs with
       | some g => .error (.oneofMultiMapping g srcPb.name)
       | none => .ok ()) := by
  rw [oneofGuard]
  by_cases he : srcPb.oneofs.isEmpty
  · rw [if_pos he]
    have h0 : srcPb.oneofs = [] := List.isEmpty_iff.mp he
    rw [h0]
    rfl
  · rw [if_neg he, validateOneofFieldMultiMapping,
      validateOneofs_eq_firstViolation]

theorem firstViolation_some_decomp (dict : List (String × String))
    (dfn ign : List String) (gs : List (String × List String)) (g : String)
    (h : firstViolation dict dfn ign gs = some g) :
    ∃ pre ms post, gs = pre ++ (g, ms) :: post ∧
      (mappedFields dict dfn ign ms).length > 1 ∧
      ∀ e, e ∈ pre → ¬ (mappedFields dict dfn ign e.2).length > 1 := by
  induction gs with
  | nil => cases h
  | cons gp rest ih =>
    obtain ⟨g2, ms2⟩ := gp
    rw [firstViolation] at h
    by_cases hv : (mappedFields dict dfn ign ms2).length > 1
    · rw [if_pos hv] at h
      injection h with h2
      subst h2
      exact ⟨[], ms2, rest, rfl, hv, fun e he => absurd he (List.not_mem_nil e)⟩
    · rw [if_neg hv] at h
      obtain ⟨pre, ms, post, hgs, hviol, hpre⟩ := ih h
      refine ⟨(g2, ms2) :: pre, ms, post, by rw [hgs]; rfl, hviol, ?_⟩
      intro e he
      rcases List.mem_cons.mp he with h1 | h1
      · rw [h1]
        exact hv
      · exact hpre e h1

theorem firstViolation_none_iff (dict : List (String × String))
    (dfn ign : List String) (gs : List (String × List String)) :
    firstViolation dict dfn ign gs = none ↔
      ∀ e, e ∈ gs → ¬ (mappedFields dict dfn ign e.2).length > 1 := by
  induction gs with
  | nil =>
    constructor
    · intro _ e he
      cases he
    · intro _
      rfl
  | cons gp rest ih =>
    obtain ⟨g2, ms2⟩ := gp
    rw [firstViolation]
    by_cases hv : (mappedFields dict dfn ign ms2).length > 1
    · rw [if_pos hv]
      constructor
      · intro h
        cases h
      · intro hall
        exact absurd hv (hall (g2, ms2) (List.mem_cons_self _ _))
    · rw [if_neg hv, ih]
      constructor
      · intro hall e he
        rcases List.mem_cons.mp he with h1 | h1
        · rw [h1]
          exact hv
        · exact hall e h1
      · intro hall e he
        exact hall e (List.mem_cons_of_mem _ he)

/-- C3 (amended): a oneof configuration error names exactly the first
violating group in check order — all source-schema groups are checked
before destination-schema groups, each in declaration order.  Precisely:
construction fails with an error naming group `g` and schema `p` iff `g` is
the first violating source-side group (and `p` the source schema), or no
source-side group violates and `g` is the first violating destination-side
group (and `p` the destination schema); the first violating group of a
group list is one whose members map to more than one distinct destination
target while every earlier group's members do not, and no first violation
exists iff no group violates. -/
theorem c3_oneof_multi_mapping_error (pbFrom pbTo : SchemaType)
    (ignore : List String) (handlers : List HandlerDecl) :
    (∀ g p,
      mkProtoConverter pbFrom pbTo ignore handlers =
          .error (.oneofMultiMapping g p) ↔
        ((firstViolation (getFieldsToOneofDict pbTo.oneofs)
            (pbTo.fields.map FieldDesc.name) ignore pbFrom.oneofs = some g ∧
          p = pbFrom.name) ∨
         (firstViolation (getFieldsToOneofDict pbTo.oneofs)
            (pbTo.fields.map FieldDesc.name) ignore pbFrom.oneofs = none ∧
          firstViolation (getFieldsToOneofDict pbFrom.oneofs)
            (pbFrom.fields.map FieldDesc.name) ignore pbTo.oneofs = some g ∧
          p = pbTo.name))) ∧
    (∀ (dict : List (String × String)) (dfn : List String)
        (gs : List (String × List String)) (g : String),
      firstViolation dict dfn ignore gs = some g →
      ∃ pre ms post, gs = pre ++ (g, ms) :: post ∧
        (mappedFields dict dfn ignore ms).length > 1 ∧
        ∀ e, e ∈ pre → ¬ (mappedFields dict dfn ignore e.2).length > 1) ∧
    (∀ (dict : List (String × String)) (dfn : List String)
        (gs : List (String × List String)),
      firstViolation dict dfn ignore gs = none ↔
        ∀ e, e ∈ gs → ¬ (mappedFields dict dfn ignore e.2).length > 1) := by
  refine ⟨?_,
    fun dict dfn gs g h => firstViolation_some_decomp dict dfn ignore gs g h,
    fun dict dfn gs => firstViolation_none_iff dict dfn ignore gs⟩
  intro g p
  rw [mkProtoConverter]
  cases hf1 : firstViolation (getFieldsToOneofDict pbTo.oneofs)
      (pbTo.fields.map FieldDesc.name) ignore pbFrom.oneofs with
  | some g0 =>
    have hg1 : oneofGuard pbFrom pbTo ignore =
        .error (.oneofMultiMapping g0 pbFrom.name) := by
      rw [oneofGuard_eq_firstViolation, hf1]
    rw [hg1]
    simp only []
    constructor
    · intro h
      injection h with h2
      injection h2 with h3 h4
      exact Or.inl ⟨h3 ▸ rfl, h4.symm⟩
    · rintro (⟨hfv, hp⟩ | ⟨hnone, _, _⟩)
      · injection hfv with h5
        rw [h5, hp]
      · cases hnone
  | none =>
    have hg1 : oneofGuard pbFrom pbTo ignore = .ok () := by
      rw [oneofGuard_eq_firstViolation, hf1]
    rw [hg1]
    simp only []
    cases hf2 : firstViolation (getFieldsToOneofDict pbFrom.oneofs)
        (pbFrom.fields.map FieldDesc.name) ignore pbTo.oneofs with
    | some g0 =>
      have hg2 : oneofGuard pbTo pbFrom ignore =
          .error (.oneofMultiMapping g0 pbTo.name) := by
        rw [oneofGuard_eq_firstViolation, hf2]
      rw [hg2]
      simp only []
      constructor
      · intro h
        injection h with h2
        injection h2 with h3 h4
        exact Or.inr ⟨by trivial, h3 ▸ rfl, h4.symm⟩
      · rintro (⟨hsome, _⟩ | ⟨_, hfv, hp⟩)
        · cases hsome
        · injection hfv with h5
          rw [h5, hp]
    | none =>
      have hg2 : oneofGuard pbTo pbFrom ignore = .ok () := by
        rw [oneofGuard_eq_firstViolation, hf2]
      rw [hg2]
      simp only []
      constructor
      · intro h
        by_cases h3 : (remainingUnhandled pbFrom pbTo ignore
            (claimedNames (collectHandlers handlers))).isEmpty
        · rw [if_pos h3] at h
          cases h
        · rw [if_neg h3] at h
          injection h with h4
          cases h4
      · rintro (⟨hsome, _⟩ | ⟨_, hfv, _⟩)
        · cases hsome
        · cases hfv

/-- Witness for C3's amended theorem: against the plain destination
`pkg.B3`, the first violating group of `pkg.A2` is `g1`, and construction
fails naming exactly `g1` and `A2`. -/
theorem c3_witness :
    firstViolation (getFieldsToOneofDict exPlainDest4S.oneofs)
      (exPlainDest4S.fields.map FieldDesc.name) [] exTwoOneofSrcS.oneofs =
      some "g1" ∧
    mkProtoConverter exTwoOneofSrcS exPlainDest4S [] [] =
      .error (.oneofMultiMapping "g1" "A2") :=
  ⟨rfl,
    ((c3_oneof_multi_mapping_error exTwoOneofSrcS exPlainDest4S [] []).1
      "g1" "A2").mpr (Or.inl ⟨rfl, rfl⟩)⟩

/-- Inversion of the constructor at a successful construction: the
converter's components, including the collected (alphabetically ordered)
handler functions. -/
theorem mk_ok_shape (pbFrom pbTo : SchemaType) (ignore : List String)
    (handlers : List HandlerDecl) (c : ProtoConverter)
    (h : mkProtoConverter pbFrom pbTo ignore handlers = .ok c) :
    c = ⟨pbFrom, pbTo, ignore,
      getUnhandledFields pbFrom.fields pbTo.fields ignore,
      (collectHandlers handlers).map (fun h => h.2.2)⟩ := by
  rw [mkProtoConverter] at h
  cases h1 : oneofGuard pbFrom pbTo ignore with
  | error e => rw [h1] at h; cases h
  | ok u =>
    rw [h1] at h
    cases h2 : oneofGuard pbTo pbFrom ignore with
    | error e => rw [h2] at h; cases h
    | ok u2 =>
      rw [h2] at h
      by_cases h3 : (remainingUnhandled pbFrom pbTo ignore
          (claimedNames (collectHandlers handlers))).isEmpty
      · rw [if_pos h3] at h
        injection h with h4
        exact h4.symm
      · rw [if_neg h3] at h
        cases h

/-- Counterexample for C5: two handlers declared in the order
`b_first` (writes `u := 1`), then `a_second` (writes `u := 2`).  The
collection loop iterates `dir()`, which sorts method names, so `a_second`
runs first and `b_first` last: `convert` leaves `u = 1`, whereas invoking
the handlers in registration order would leave `u = 2`. -/
theorem c5_counterexample :
    mkProtoConverter exPlainDestS exPlainDestS [] [exDeclB, exDeclA] =
      .ok ⟨exPlainDestS, exPlainDestS, [], [], [exHandler2, exHandler1]⟩ ∧
    (⟨exPlainDestS, exPlainDestS, [], [], [exHandler2, exHandler1]⟩ :
        ProtoConverter).convert emptyPool (PMsg.mk exPlainDestS []) =
      .ok (PMsg.mk exPlainDestS [("u", .single (.prim 1))]) ∧
    ([exDeclB, exDeclA].map (fun h => h.2.2)).foldl
        (fun d f => f (PMsg.mk exPlainDestS []) d) (PMsg.mk exPlainDestS []) =
      PMsg.mk exPlainDestS [("u", .single (.prim 2))] ∧
    PMsg.mk exPlainDestS [("u", .single (.prim 1))] ≠
      PMsg.mk exPlainDestS [("u", .single (.prim 2))] :=
  ⟨rfl, rfl, rfl, by
    intro h
    injection h with hs hf
    injection hf with hh ht
    injection hh with hn hv
    injection hv with hv2
    injection hv2 with hv3
    exact absurd hv3 (by decide)⟩

/-- C5 (amended): on a `convert` call whose type check passes and whose
automatic copy succeeds, every registered handler is invoked exactly once
(the invoked list is a permutation of the declared handlers), after the
automatic field copy completes and independently of which source fields are
populated — but in alphabetical order of the handler method names (the
order `dir()` yields), not in registration order. -/
theorem c5_handlers_invoked_once_after_copy
    (pool : String → Option SchemaType) (pbFrom pbTo : SchemaType)
    (ignore : List String) (handlers : List HandlerDecl)
    (c : ProtoConverter) (src d0 : PMsg)
    (hmk : mkProtoConverter pbFrom pbTo ignore handlers = .ok c)
    (hname : src.schema.fullName = pbFrom.fullName)
    (hauto : autoConvert pool ignore
      (getUnhandledFields pbFrom.fields pbTo.fields ignore) pbTo src
      (PMsg.mk pbTo []) = .ok d0) :
    c.convert pool src =
      .ok (((collectHandlers handlers).map (fun h => h.2.2)).foldl
        (fun d f => f src d) d0) ∧
    List.Perm (collectHandlers handlers) handlers ∧
    List.Pairwise (fun a b => nameLe a.1 b.1 = true)
      (collectHandlers handlers) := by
  have hc := mk_ok_shape pbFrom pbTo ignore handlers c hmk
  subst hc
  refine ⟨?_, perm_collectHandlers handlers, sorted_collectHandlers handlers⟩
  have h1 : (src.schema.fullName != pbFrom.fullName) = false := by
    simp [hname]
  simp only [ProtoConverter.convert]
  rw [h1]
  simp only [Bool.false_eq_true, if_false]
  rw [hauto]

/-- Witness for C5's amended theorem: the two declared handlers of the
counterexample are collected sorted and folded over the fresh
destination. -/
theorem c5_witness :
    mkProtoConverter exPlainDestS exPlainDestS [] [exDeclB, exDeclA] =
      .ok ⟨exPlainDestS, exPlainDestS, [], [], [exHandler2, exHandler1]⟩ ∧
    ((⟨exPlainDestS, exPlainDestS, [], [], [exHandler2, exHandler1]⟩ :
        ProtoConverter).convert emptyPool (PMsg.mk exPlainDestS []) =
      .ok (((collectHandlers [exDeclB, exDeclA]).map (fun h => h.2.2)).foldl
        (fun d f => f (PMsg.mk exPlainDestS []) d)
        (PMsg.mk exPlainDestS [])) ∧
     List.Perm (collectHandlers [exDeclB, exDeclA]) [exDeclB, exDeclA] ∧
     List.Pairwise (fun a b => nameLe a.1 b.1 = true)
       (collectHandlers [exDeclB, exDeclA])) :=
  ⟨rfl,
    c5_handlers_invoked_once_after_copy emptyPool exPlainDestS exPlainDestS
      [] [exDeclB, exDeclA]
      ⟨exPlainDestS, exPlainDestS, [], [], [exHandler2, exHandler1]⟩
      (PMsg.mk exPlainDestS []) (PMsg.mk exPlainDestS []) rfl rfl rfl⟩

/-- C7 (confirmed): `convert` raises a type-mismatch error iff the given
instance's full type name differs from the configured source type's full
name; the error carries the actual and the expected names, and when the
names match the conversion proceeds (no type-mismatch error is possible). -/
theorem c7_type_mismatch_check (pool : String → Option SchemaType)
    (c : ProtoConverter) (src : PMsg) :
    (src.schema.fullName ≠ c.pbClassFrom.fullName →
      c.convert pool src =
        .error (.typeMismatch src.schema.fullName c.pbClassFrom.fullName)) ∧
    (src.schema.fullName = c.pbClassFrom.fullName →
      ∀ a e, c.convert pool src ≠ .error (.typeMismatch a e)) ∧
    (∀ a e, c.convert pool src = .error (.typeMismatch a e) →
      a = src.schema.fullName ∧ e = c.pbClassFrom.fullName ∧
        src.schema.fullName ≠ c.pbClassFrom.fullName) := by
  by_cases h : src.schema.fullName = c.pbClassFrom.fullName
  · have h1 : (src.schema.fullName != c.pbClassFrom.fullName) = false := by
      simp [h]
    have hshape : ∀ a e, c.convert pool src ≠ .error (.typeMismatch a e) := by
      intro a e hc
      rw [ProtoConverter.convert, h1] at hc
      simp only [Bool.false_eq_true, if_false] at hc
      cases hr : autoConvert pool c.fieldNamesToIgnore c.unconvertedFields
          c.pbClassTo src (PMsg.mk c.pbClassTo []) with
      | error s =>
        rw [hr] at hc
        injection hc with h2
        cases h2
      | ok d =>
        rw [hr] at hc
        cases hc
    refine ⟨fun hne => absurd h hne, fun _ => hshape, ?_⟩
    intro a e hc
    exact absurd hc (hshape a e)
  · have h1 : (src.schema.fullName != c.pbClassFrom.fullName) = true := by
      simp [h]
    have heq : c.convert pool src =
        .error (.typeMismatch src.schema.fullName c.pbClassFrom.fullName) := by
      rw [ProtoConverter.convert, h1]
      simp
    refine ⟨fun _ => heq, fun he => absurd he h, ?_⟩
    intro a e hc
    rw [heq] at hc
    injection hc with h2
    injection h2 with h3 h4
    exact ⟨h3.symm, h4.symm, h⟩

/-- Witness for C7: a `pkg.D` instance given to a converter configured from
`pkg.B` fails with a type-mismatch error naming both full type names. -/
theorem c7_witness :
    (PMsg.mk exSingleFieldS []).schema.fullName ≠ exPlainDestS.fullName ∧
    (⟨exPlainDestS, exPlainDestS, [], [], []⟩ : ProtoConverter).convert
        emptyPool (PMsg.mk exSingleFieldS []) =
      .error (.typeMismatch (PMsg.mk exSingleFieldS []).schema.fullName
        exPlainDestS.fullName) :=
  ⟨by decide,
    (c7_type_mismatch_check emptyPool
      ⟨exPlainDestS, exPlainDestS, [], [], []⟩
      (PMsg.mk exSingleFieldS [])).1 (by decide)⟩

/-! ## Round-trip machinery: the identity schema pair passes both oneof
validations and has no unconverted fields -/

theorem dictLookup_insert (d : List (String × String)) (k v n : String) :
    dictLookup (dictInsert d k v) n =
      if k == n then some v else dictLookup d n := by
  induction d with
  | nil =>
    by_cases h : k = n
    · have hb : (k == n) = true := by simp [h]
      simp [dictInsert, dictLookup, List.find?, hb]
    · have hb : (k == n) = false := by simp [h]
      simp [dictInsert, dictLookup, List.find?, hb]
  | cons p rest ih =>
    obtain ⟨k2, v2⟩ := p
    by_cases h2 : k2 = k
    · subst h2
      by_cases h : k2 = n
      · subst h
        have hb : (k2 == k2) = true := by simp
        simp [dictInsert, dictLookup, List.find?, hb]
      · have hb : (k2 == n) = false := by simp [h]
        have hb2 : (k2 == k2) = true := by simp
        simp [dictInsert, dictLookup, List.find?, hb, hb2]
    · have hb : (k2 == k) = false := by simp [h2]
      by_cases h : k2 = n
      · subst h
        have hkn : (k == k2) = false := by
          simp
          exact fun he => h2 he.symm
        have hself : (k2 == k2) = true := by simp
        simp [dictInsert, hb, dictLookup, List.find?, hkn, hself]
      · have hb2 : (k2 == n) = false := by simp [h]
        simp only [dictInsert, hb, Bool.false_eq_true, if_false]
        have he1 : dictLookup ((k2, v2) :: dictInsert rest k v) n =
            dictLookup (dictInsert rest k v) n := by
          simp [dictLookup, List.find?, hb2]
        rw [he1, ih]
        have he2 : dictLookup ((k2, v2) :: rest) n = dictLookup rest n := by
          simp [dictLookup, List.find?, hb2]
        rw [he2]

theorem dictLookup_fold_inner (g : String) (ms : List String)
    (acc : List (String × String)) (n : String) :
    dictLookup (ms.foldl (fun a n2 => dictInsert a n2 g) acc) n =
      if n ∈ ms then some g else dictLookup acc n := by
  induction ms generalizing acc with
  | nil => simp
  | cons m rest ih =>
    rw [List.foldl_cons, ih]
    by_cases hmem : n ∈ rest
    · simp [hmem]
    · by_cases hnm : m = n
      · subst hnm
        simp [hmem, dictLookup_insert]
      · have hb : (m == n) = false := by simp [hnm]
        have : n ∈ m :: rest ↔ False := by
          simp [hmem]
          exact fun h => hnm h.symm
        simp [hmem, this, dictLookup_insert, hb]

theorem dictLookup_outer_fold (os : List (String × List String))
    (acc : List (String × String)) (g n : String)
    (hcons : ∀ e, e ∈ os → n ∈ e.2 → e.1 = g)
    (hacc : dictLookup acc n = none ∨ dictLookup acc n = some g)
    (hsome : (∃ e, e ∈ os ∧ n ∈ e.2) ∨ dictLookup acc n = some g) :
    dictLookup
      (os.foldl
        (fun acc2 gp => gp.2.foldl (fun a n2 => dictInsert a n2 gp.1) acc2)
        acc) n = some g := by
  induction os generalizing acc with
  | nil =>
    rcases hsome with ⟨e, he, _⟩ | h
    · cases he
    · simpa using h
  | cons gp rest ih =>
    rw [List.foldl_cons]
    have hstep := dictLookup_fold_inner gp.1 gp.2 acc n
    by_cases hmem : n ∈ gp.2
    · have hg : gp.1 = g := hcons gp (List.mem_cons_self _ _) hmem
      rw [if_pos hmem] at hstep
      have hstep2 := hstep.trans (congrArg some hg)
      exact ih _ (fun e he hn => hcons e (List.mem_cons_of_mem _ he) hn)
        (Or.inr hstep2) (Or.inr hstep2)
    · rw [if_neg hmem] at hstep
      apply ih _ (fun e he hn => hcons e (List.mem_cons_of_mem _ he) hn)
        (by rw [hstep]; exact hacc)
      rcases hsome with ⟨e, he, hn⟩ | h
      · rcases List.mem_cons.mp he with h1 | h1
        · subst h1
          exact absurd hn hmem
        · exact Or.inl ⟨e, h1, hn⟩
      · exact Or.inr (by rw [hstep]; exact h)

theorem oneofDict_lookup (t : SchemaType) (g : String) (ms : List String)
    (n : String) (hcons : oneofMembersConsistent t)
    (hmem : (g, ms) ∈ t.oneofs) (hn : n ∈ ms) :
    dictLookup (getFieldsToOneofDict t.oneofs) n = some g := by
  rw [getFieldsToOneofDict]
  exact dictLookup_outer_fold t.oneofs [] g n
    (fun e he hne => hcons e he (g, ms) hmem n hne hn)
    (Or.inl rfl) (Or.inl ⟨(g, ms), hmem, hn⟩)

theorem insertSet_of_single (g : String) (acc : List String)
    (hacc : acc = [] ∨ acc = [g]) :
    insertSet acc g = [g] := by
  rcases hacc with h | h <;> subst h <;> simp [insertSet]

theorem mappedFields_single (dict : List (String × String))
    (dfn ign : List String) (g : String) (ms : List String)
    (h : ∀ n, n ∈ ms → ign.contains n = false ∧ dictLookup dict n = some g) :
    mappedFields dict dfn ign ms = [] ∨ mappedFields dict dfn ign ms = [g] := by
  suffices hgen : ∀ (ms2 : List String),
      (∀ n, n ∈ ms2 → ign.contains n = false ∧ dictLookup dict n = some g) →
      ∀ (acc : List String), (acc = [] ∨ acc = [g]) →
      ((ms2.foldl
        (fun acc2 n =>
          if ign.contains n then acc2
          else
            match dictLookup dict n with
            | some g2 => insertSet acc2 g2
            | none => if dfn.contains n then insertSet acc2 n else acc2)
        acc) = [] ∨
      (ms2.foldl
        (fun acc2 n =>
          if ign.contains n then acc2
          else
            match dictLookup dict n with
            | some g2 => insertSet acc2 g2
            | none => if dfn.contains n then insertSet acc2 n else acc2)
        acc) = [g]) by
    exact hgen ms h [] (Or.inl rfl)
  intro ms2
  induction ms2 with
  | nil =>
    intro _ acc hacc
    simpa using hacc
  | cons m rest ih =>
    intro hh acc hacc
    rw [List.foldl_cons]
    obtain ⟨hig, hlk⟩ := hh m (List.mem_cons_self _ _)
    have hstep :
        (if ign.contains m then acc
         else
           match dictLookup dict m with
           | some g2 => insertSet acc g2
           | none => if dfn.contains m then insertSet acc m else acc) = [g] := by
      simp only [hig, Bool.false_eq_true, if_false, hlk]
      exact insertSet_of_single g acc hacc
    rw [hstep]
    exact ih (fun n hn => hh n (List.mem_cons_of_mem _ hn)) [g] (Or.inr rfl)

theorem validateOneofs_self_ok (t : SchemaType)
    (hcons : oneofMembersConsistent t) :
    validateOneofs t.name (getFieldsToOneofDict t.oneofs)
      (t.fields.map FieldDesc.name) [] t.oneofs = .ok () := by
  suffices hgen : ∀ (gs : List (String × List String)),
      (∀ e, e ∈ gs → e ∈ t.oneofs) →
      validateOneofs t.name (getFieldsToOneofDict t.oneofs)
        (t.fields.map FieldDesc.name) [] gs = .ok () by
    exact hgen t.oneofs (fun e he => he)
  intro gs
  induction gs with
  | nil => intro _; rfl
  | cons gp rest ih =>
    intro hsub
    obtain ⟨g, ms⟩ := gp
    rw [validateOneofs]
    have hsingle := mappedFields_single (getFieldsToOneofDict t.oneofs)
      (t.fields.map FieldDesc.name) [] g ms
      (fun n hn => ⟨rfl,
        oneofDict_lookup t g ms n hcons (hsub _ (List.mem_cons_self _ _)) hn⟩)
    have hlen : ¬ (mappedFields (getFieldsToOneofDict t.oneofs)
        (t.fields.map FieldDesc.name) [] ms).length > 1 := by
      rcases hsingle with h | h <;> rw [h] <;> simp
    rw [if_neg hlen]
    exact ih (fun e he => hsub e (List.mem_cons_of_mem _ he))

theorem oneofGuard_self_ok (t : SchemaType)
    (hcons : oneofMembersConsistent t) : oneofGuard t t [] = .ok () := by
  rw [oneofGuard]
  by_cases h : t.oneofs.isEmpty
  · rw [if_pos h]
  · rw [if_neg h, validateOneofFieldMultiMapping]
    exact validateOneofs_self_ok t hcons

theorem getUnhandledFields_nil_of_all (fields destFields : List FieldDesc)
    (ignore : List String)
    (h : ∀ f, f ∈ fields → isAutoConvertible f destFields = true) :
    getUnhandledFields fields destFields ignore = [] := by
  induction fields with
  | nil => rfl
  | cons f rest ih =>
    rw [getUnhandledFields]
    by_cases hig : ignore.contains f.name = true
    · rw [if_pos hig]
      exact ih (fun g hg => h g (List.mem_cons_of_mem _ hg))
    · rw [if_neg hig, if_pos (h f (List.mem_cons_self _ _))]
      exact ih (fun g hg => h g (List.mem_cons_of_mem _ hg))

/-! ## Round-trip machinery: the per-field copy is the identity on a
conforming instance of the identity schema pair -/

theorem lookupField_nil (n : String) : lookupField [] n = none := rfl

theorem setFields_append (fields : List (String × PField)) (n : String)
    (v : PField) (h : lookupField fields n = none) :
    setFields fields n v = fields ++ [(n, v)] := by
  induction fields with
  | nil => rfl
  | cons p rest ih =>
    obtain ⟨m, w⟩ := p
    rw [setFields]
    have hb : (m == n) = false := by
      by_cases hmn : m = n
      · subst hmn
        rw [lookupField] at h
        simp [List.find?] at h
      · simp [hmn]
    rw [hb]
    simp only [Bool.false_eq_true, if_false, List.cons_append]
    congr 1
    apply ih
    rw [lookupField] at h ⊢
    rw [List.find?] at h
    rw [hb] at h
    exact h

theorem getRepeated_of_lookup_none (m : PMsg) (n : String)
    (h : lookupField m.fields n = none) : getRepeated m n = [] := by
  rw [getRepeated, h]

theorem getMapEntries_of_lookup_none (m : PMsg) (n : String)
    (h : lookupField m.fields n = none) : getMapEntries m n = [] := by
  rw [getMapEntries, h]

theorem setMapKey_append (old : List (Nat × PVal)) (k : Nat) (v : PVal)
    (h : ∀ kv, kv ∈ old → kv.1 ≠ k) :
    setMapKey old k v = old ++ [(k, v)] := by
  induction old with
  | nil => rfl
  | cons kv rest ih =>
    obtain ⟨k2, v2⟩ := kv
    have hne : k2 ≠ k := h (k2, v2) (List.mem_cons_self _ _)
    have hb : (k2 == k) = false := by simp [hne]
    rw [setMapKey, hb]
    simp only [Bool.false_eq_true, if_false, List.cons_append]
    congr 1
    exact ih (fun kv2 hm => h kv2 (List.mem_cons_of_mem _ hm))

theorem mergeMapEntries_append (kvs old : List (Nat × PVal))
    (hdisj : ∀ kv, kv ∈ kvs → ∀ kv2, kv2 ∈ old → kv2.1 ≠ kv.1)
    (hnodup : nodupKeys kvs = true) :
    mergeMapEntries old kvs = old ++ kvs := by
  rw [mergeMapEntries]
  induction kvs generalizing old with
  | nil => simp
  | cons kv rest ih =>
    obtain ⟨k, v⟩ := kv
    rw [List.foldl_cons]
    rw [nodupKeys] at hnodup
    obtain ⟨hknotin, hrest⟩ := Bool.and_eq_true_iff.mp hnodup
    have hset : setMapKey old k v = old ++ [(k, v)] :=
      setMapKey_append old k v
        (fun kv2 hm => hdisj (k, v) (List.mem_cons_self _ _) kv2 hm)
    rw [hset]
    rw [ih (old ++ [(k, v)]) ?_ hrest]
    · simp
    · intro kv2 hm kv3 hm3
      rcases List.mem_append.mp hm3 with h1 | h1
      · exact hdisj kv2 (List.mem_cons_of_mem _ hm) kv3 h1
      · have h4 : kv3 = (k, v) := by simpa using h1
        subst h4
        intro he
        have h6 : k = kv2.1 := he
        have hkn2 : rest.any (fun kv => kv.1 == k) = false := by
          simpa using hknotin
        rw [List.any_eq_false] at hkn2
        exact hkn2 kv2 hm (by rw [← h6]; simp)

theorem mergeMapEntries_nil_left (kvs : List (Nat × PVal))
    (hnodup : nodupKeys kvs = true) : mergeMapEntries [] kvs = kvs := by
  have := mergeMapEntries_append kvs [] (fun kv _ kv2 hm => by cases hm)
    hnodup
  simpa using this

theorem convertAnyList_id (pool : String → Option SchemaType)
    (vs : List PVal) (h : vs.all (anyCoherent pool) = true) :
    convertAnyList pool vs = .ok vs := by
  induction vs with
  | nil => rfl
  | cons v rest ih =>
    rw [List.all_cons] at h
    obtain ⟨hv, hrest⟩ := Bool.and_eq_true_iff.mp h
    rw [convertAnyList]
    cases v with
    | prim w => simp [anyCoherent] at hv
    | emb m => simp [anyCoherent] at hv
    | anyV t p =>
      cases hpool : pool t with
      | none => simp [anyCoherent, hpool] at hv
      | some s =>
        simp [anyCoherent, hpool] at hv
        obtain ⟨hs2, hp2⟩ := hv
        have h1 : (t == s.fullName) = true := by simp [hs2]
        have h2 : (p.schema.fullName == s.fullName) = true := by
          simp [hp2, hs2]
        have hub : unboxRebox pool (.anyV t p) = .ok (.anyV t p) := by
          simp only [unboxRebox, hpool, h1, h2, if_true, packMsg, hp2]
        rw [hub, ih hrest]

theorem lookupField_cons (k : String) (w : PField)
    (rest : List (String × PField)) (m : String) :
    lookupField ((k, w) :: rest) m =
      if k == m then some w else lookupField rest m := by
  rw [lookupField, List.find?]
  by_cases h : (k == m) = true <;> simp [h, lookupField]

theorem lookupField_append_single (acc : List (String × PField))
    (n : String) (v : PField) (m : String)
    (hacc : lookupField acc m = none) (hne : m ≠ n) :
    lookupField (acc ++ [(n, v)]) m = none := by
  induction acc with
  | nil =>
    have hb : (n == m) = false := by
      simp
      exact fun h => hne h.symm
    simp [lookupField, List.find?, hb]
  | cons p rest ih =>
    obtain ⟨k, w⟩ := p
    rw [lookupField_cons] at hacc
    by_cases hb : (k == m) = true
    · rw [if_pos hb] at hacc
      cases hacc
    · rw [if_neg hb] at hacc
      rw [List.cons_append, lookupField_cons, if_neg hb]
      exact ih hacc

theorem conformsField_find (pool : String → Option SchemaType)
    (t : SchemaType) (n : String) (fv : PField)
    (h : conformsField pool t n fv = true) :
    ∃ d, findField t.fields n = some d := by
  rw [conformsField.eq_def] at h
  cases hf : findField t.fields n with
  | none =>
    rw [hf] at h
    simp at h
  | some d => exact ⟨d, rfl⟩

/-- On the identity schema pair with nothing ignored and nothing
unconverted, copying one conforming populated field appends it verbatim to
the destination. -/
theorem convertField_roundtrip (pool : String → Option SchemaType)
    (t : SchemaType) (acc : List (String × PField)) (n : String)
    (fv : PField) (d : FieldDesc)
    (hfind : findField t.fields n = some d)
    (hconf : conformsField pool t n fv = true)
    (hfresh : lookupField acc n = none) :
    convertField pool t [] [] (PMsg.mk t acc) d fv =
      .ok (PMsg.mk t (acc ++ [(n, fv)])) := by
  have hname : d.name = n := by
    rw [findField] at hfind
    have h := List.find?_some hfind
    simpa using h
  subst hname
  rw [conformsField.eq_def, hfind] at hconf
  simp only [] at hconf
  have hskip : (([] : List String).contains d.name ||
      ([] : List String).contains d.name) = false := rfl
  have hgetrep : getRepeated (PMsg.mk t acc) d.name = [] :=
    getRepeated_of_lookup_none _ _ hfresh
  have hgetmap : getMapEntries (PMsg.mk t acc) d.name = [] :=
    getMapEntries_of_lookup_none _ _ hfresh
  have hset : ∀ w, setField (PMsg.mk t acc) d.name w =
      PMsg.mk t (acc ++ [(d.name, w)]) := by
    intro w
    rw [setField]
    show PMsg.mk t (setFields acc d.name w) = _
    rw [setFields_append acc d.name w hfresh]
  by_cases hmap : isMapField d = true
  · rw [if_pos hmap] at hconf
    cases fv with
    | single v => cases hconf
    | repF vs => cases hconf
    | mapF kvs =>
      cases hsm : d.messageType with
      | none => rw [hsm] at hconf; cases hconf
      | some sm =>
        rw [hsm] at hconf
        simp only [Bool.and_eq_true, Option.isSome_iff_exists] at hconf
        obtain ⟨⟨svf, hsvf⟩, hnodup⟩ := hconf
        simp only [convertField.eq_def, hskip, Bool.false_eq_true, if_false,
          hfind, hmap, if_true, hsm, hsvf, Bool.and_not_self, hgetmap,
          mergeMapEntries_nil_left kvs hnodup, hset]
  · have hmapf : isMapField d = false := by
      rw [Bool.not_eq_true] at hmap
      exact hmap
    rw [if_neg hmap] at hconf
    by_cases hrep : (d.label == LABEL_REPEATED) = true
    · rw [if_pos hrep] at hconf
      cases fv with
      | single v => cases hconf
      | mapF kvs => cases hconf
      | repF vs =>
        by_cases hany : isAnyField d = true
        · have hall : vs.all (anyCoherent pool) = true := by
            rw [hany] at hconf
            simpa using hconf
          simp only [convertField.eq_def, hskip, Bool.false_eq_true, if_false,
            hfind, hmapf, hrep, if_true, hany,
            convertAnyList_id pool vs hall, hgetrep, List.nil_append, hset]
        · have hanyf : isAnyField d = false := by
            rw [Bool.not_eq_true] at hany
            exact hany
          simp only [convertField.eq_def, hskip, Bool.false_eq_true, if_false,
            hfind, hmapf, hrep, if_true, hanyf, hgetrep, List.nil_append,
            hset]
    · have hrepf : (d.label == LABEL_REPEATED) = false := by
        rw [Bool.not_eq_true] at hrep
        exact hrep
      rw [if_neg hrep] at hconf
      cases fv with
      | repF vs => cases hconf
      | mapF kvs => cases hconf
      | single v =>
        by_cases htype : (d.ftype == TYPE_MESSAGE) = true
        · simp only [convertField.eq_def, hskip, Bool.false_eq_true, if_false,
            hfind, hmapf, hrepf, htype, if_true, Bool.and_not_self, hset]
        · have htypef : (d.ftype == TYPE_MESSAGE) = false := by
            rw [Bool.not_eq_true] at htype
            exact htype
          simp only [convertField.eq_def, hskip, Bool.false_eq_true, if_false,
            hfind, hmapf, hrepf, htypef, hset]

/-- Folding the conforming populated fields of an instance over the
identity-pair copy appends them all, in order. -/
theorem autoConvertFields_roundtrip (pool : String → Option SchemaType)
    (t : SchemaType) (fs : List (String × PField)) :
    ∀ (acc : List (String × PField)),
      (∀ p, p ∈ fs → conformsField pool t p.1 p.2 = true) →
      nodupNames fs = true →
      (∀ p, p ∈ fs → lookupField acc p.1 = none) →
      autoConvertFields pool t t [] [] fs (PMsg.mk t acc) =
        .ok (PMsg.mk t (acc ++ fs)) := by
  induction fs with
  | nil =>
    intro acc _ _ _
    simp [autoConvertFields]
  | cons p rest ih =>
    intro acc hconf hnodup hfresh
    obtain ⟨n, fv⟩ := p
    have hc := hconf (n, fv) (List.mem_cons_self _ _)
    obtain ⟨d, hd⟩ := conformsField_find pool t n fv hc
    rw [autoConvertFields, hd]
    simp only []
    rw [convertField_roundtrip pool t acc n fv d hd hc
      (hfresh _ (List.mem_cons_self _ _))]
    simp only []
    rw [nodupNames] at hnodup
    obtain ⟨hnone, hrest⟩ := Bool.and_eq_true_iff.mp hnodup
    have hnone2 : rest.any (fun q => q.1 == n) = false := by
      simpa using hnone
    rw [List.any_eq_false] at hnone2
    have hfresh2 : ∀ q, q ∈ rest → lookupField (acc ++ [(n, fv)]) q.1 = none := by
      intro q hq
      apply lookupField_append_single acc n fv q.1
        (hfresh q (List.mem_cons_of_mem _ hq))
      intro he
      exact hnone2 q hq (by simp [he])
    rw [ih (acc ++ [(n, fv)])
      (fun q hq => hconf q (List.mem_cons_of_mem _ hq)) hrest hfresh2]
    simp

theorem PMsg_eta (m : PMsg) : PMsg.mk m.schema m.fields = m := by
  cases m
  rfl

/-- C9 (confirmed): a conforming instance of a schema (well-typed shapes,
registry-coherent boxes, protobuf-consistent oneofs, self-convertible
fields) converted by the identity converter — same source and destination
type, no ignores, no handlers — constructs successfully and yields a
deep-equal copy. -/
theorem c9_round_trip_identical_schema (pool : String → Option SchemaType)
    (m : PMsg)
    (hauto : m.schema.fields.all
      (fun f => isAutoConvertible f m.schema.fields) = true)
    (hone : oneofMembersConsistent m.schema)
    (hconf : msgConforms pool m = true) :
    mkProtoConverter m.schema m.schema [] [] =
      .ok ⟨m.schema, m.schema, [], [], []⟩ ∧
    (⟨m.schema, m.schema, [], [], []⟩ : ProtoConverter).convert pool m =
      .ok m := by
  have hg : oneofGuard m.schema m.schema [] = .ok () :=
    oneofGuard_self_ok _ hone
  have hun : getUnhandledFields m.schema.fields m.schema.fields [] = [] :=
    getUnhandledFields_nil_of_all _ _ _
      (fun f hf => List.all_eq_true.mp hauto f hf)
  have hrem : remainingUnhandled m.schema m.schema [] (claimedNames []) = [] := by
    rw [remainingUnhandled, hun]
    rfl
  have hmk := mk_ok_of m.schema m.schema [] [] hg hg hrem
  rw [hun] at hmk
  refine ⟨hmk, ?_⟩
  rw [msgConforms] at hconf
  obtain ⟨hnodup, hall⟩ := Bool.and_eq_true_iff.mp hconf
  have hac := autoConvertFields_roundtrip pool m.schema m.fields []
    (fun p hp => List.all_eq_true.mp hall p hp) hnodup
    (fun p _ => rfl)
  rw [List.nil_append] at hac
  simp only [ProtoConverter.convert]
  have hbne : (m.schema.fullName != m.schema.fullName) = false := by simp
  rw [hbne]
  simp only [Bool.false_eq_true, if_false]
  rw [autoConvert]
  rw [hac]
  simp only [List.foldl_nil]
  rw [PMsg_eta]

/-- Witness for C9: the rich instance `exRoundM` of `pkg.E` (scalar,
repeated boxed, singular message, map, one oneof) round-trips. -/
theorem c9_witness :
    (exRoundM.schema.fields.all
      (fun f => isAutoConvertible f exRoundM.schema.fields)) = true ∧
    oneofMembersConsistent exRoundM.schema ∧
    msgConforms exPool exRoundM = true ∧
    mkProtoConverter exRoundM.schema exRoundM.schema [] [] =
      .ok ⟨exRoundM.schema, exRoundM.schema, [], [], []⟩ ∧
    (⟨exRoundM.schema, exRoundM.schema, [], [], []⟩ :
      ProtoConverter).convert exPool exRoundM = .ok exRoundM :=
  ⟨by decide, by decide, by decide,
    (c9_round_trip_identical_schema exPool exRoundM (by decide) (by decide)
      (by decide)).1,
    (c9_round_trip_identical_schema exPool exRoundM (by decide) (by decide)
      (by decide)).2⟩

/-- Counterexample for C4: converting a populated repeated any-wrapper
field appends a freshly packed any-wrapper element (boxing the unboxed
concrete instance), not the concrete instance itself. -/
theorem c4_counterexample :
    (⟨exAnyRepS, exAnyRepS, [], [], []⟩ : ProtoConverter).convert exPool
        exAnyRepM =
      .ok (PMsg.mk exAnyRepS [("xs", .repF [.anyV "pkg.Inner" exInnerM])]) ∧
    PVal.anyV "pkg.Inner" exInnerM ≠ PVal.emb exInnerM :=
  ⟨rfl, fun h => PVal.noConfusion h⟩

/-- C4 (amended): for a populated repeated field with any-wrapper elements
that is neither ignored nor unhandled (and is not a map), each element is
unboxed into a newly constructed instance of the concrete type named inside
the box, resolved via the external registry, and that concrete instance is
packed into a fresh any-wrapper element appended to the destination's
repeated field; a type name the registry cannot resolve raises a runtime
error. -/
theorem c4_repeated_any_unbox_rebox (pool : String → Option SchemaType)
    (destSchema : SchemaType) (ignore unconverted : List String)
    (dest : PMsg) (d dd : FieldDesc) (vs ws : List PVal)
    (hig : ignore.contains d.name = false)
    (hunc : unconverted.contains d.name = false)
    (hfind : findField destSchema.fields d.name = some dd)
    (hmap : isMapField d = false)
    (hrep : d.label = LABEL_REPEATED)
    (hany : isAnyField d = true)
    (hconv : convertAnyList pool vs = .ok ws) :
    convertField pool destSchema ignore unconverted dest d (.repF vs) =
      .ok (setField dest d.name (.repF (getRepeated dest d.name ++ ws))) ∧
    (∀ t p s, pool t = some s → s.fullName = t → p.schema.fullName = t →
      unboxRebox pool (.anyV t p) = .ok (.anyV s.fullName p)) ∧
    (∀ t p, pool t = none →
      unboxRebox pool (.anyV t p) =
        .error "KeyError: type name not found in symbol database pool") := by
  refine ⟨?_, ?_, ?_⟩
  · have hrepb : (d.label == LABEL_REPEATED) = true := by simp [hrep]
    simp only [convertField, hig, hunc, hrepb, hfind, hmap, hany, hconv,
      Bool.or_self, Bool.false_eq_true, Bool.true_eq_false, if_false, if_true]
  · intro t p s hpool hst hpt
    have h1 : (t == s.fullName) = true := by simp [hst]
    have h2 : (p.schema.fullName == s.fullName) = true := by simp [hpt, hst]
    simp only [unboxRebox, hpool, h1, h2, if_true, packMsg, hpt, hst]
    simp
  · intro t p hpool
    simp only [unboxRebox, hpool]

/-- Witness for C4's amended theorem: one boxed `pkg.Inner` element is
unboxed via the registry and re-packed into the destination element. -/
theorem c4_witness :
    convertAnyList exPool [.anyV "pkg.Inner" exInnerM] =
      .ok [.anyV "pkg.Inner" exInnerM] ∧
    convertField exPool exAnyRepS [] [] (PMsg.mk exAnyRepS [])
        (FieldDesc.mk "xs" 3 11 (some anyDescriptor))
        (.repF [.anyV "pkg.Inner" exInnerM]) =
      .ok (setField (PMsg.mk exAnyRepS [])
        (FieldDesc.mk "xs" 3 11 (some anyDescriptor)).name
        (.repF (getRepeated (PMsg.mk exAnyRepS [])
            (FieldDesc.mk "xs" 3 11 (some anyDescriptor)).name ++
          [.anyV "pkg.Inner" exInnerM]))) ∧
    unboxRebox exPool (.anyV "pkg.Inner" exInnerM) =
      .ok (.anyV exInnerS.fullName exInnerM) :=
  ⟨rfl,
    (c4_repeated_any_unbox_rebox exPool exAnyRepS [] []
      (PMsg.mk exAnyRepS []) (FieldDesc.mk "xs" 3 11 (some anyDescriptor))
      (FieldDesc.mk "xs" 3 11 (some anyDescriptor))
      [.anyV "pkg.Inner" exInnerM] [.anyV "pkg.Inner" exInnerM]
      rfl rfl rfl rfl rfl rfl rfl).1,
    (c4_repeated_any_unbox_rebox exPool exAnyRepS [] []
      (PMsg.mk exAnyRepS []) (FieldDesc.mk "xs" 3 11 (some anyDescriptor))
      (FieldDesc.mk "xs" 3 11 (some anyDescriptor))
      [.anyV "pkg.Inner" exInnerM] [.anyV "pkg.Inner" exInnerM]
      rfl rfl rfl rfl rfl rfl rfl).2.1 "pkg.Inner" exInnerM exInnerS rfl rfl
      rfl⟩

end ProtoConv
